import Mathlib

/-!
Verification development for the diskmaker reconciliation core of
`local-storage-operator` (`pkg/diskmaker/api_updater.go` and `diskmaker.go`).

Strings are embedded as `List Char`.  The host filesystem is embedded as an
oracle record (`FS`) for the read-only system calls together with a dynamic
state (`FSState`) recording the directories and symlinks created during a
cycle.  Events are emitted into a trace list; the event-reporter transport
itself is an external collaborator and is modelled, per the design document,
as an append-only sink.
-/

namespace LSO

/-- Strings are modelled as lists of characters. -/
abbrev Str := List Char

/-- Shorthand turning a Lean string literal into the `List Char` model. -/
def strL (s : String) : Str := s.toList

/-! ### Go `strings.Split` with a one-character separator

`strings.Split(s, sep)` for a one-character separator: splits around every
occurrence of `sep`; `Split("", sep) = [""]`. -/

/-- Embedding of Go `strings.Split(s, sep)` for a single-character separator. -/
def splitChar (sep : Char) : Str → List Str
  | [] => [[]]
  | c :: cs =>
      let r := splitChar sep cs
      if c = sep then [] :: r
      else (c :: r.headD []) :: r.tail

/-- Go `unicode.IsSpace`: the Unicode white-space code points. -/
def goIsSpace (c : Char) : Bool :=
  c = ' ' || c = '\t' || c = '\n' || c = '\x0B' || c = '\x0C' || c = '\r' ||
  c = '\x85' || c = '\xA0' || c = '\u1680' ||
  ('\u2000' ≤ c && c ≤ '\u200A') ||
  c = '\u2028' || c = '\u2029' || c = '\u202F' || c = '\u205F' || c = '\u3000'

/-- Embedding of Go `strings.TrimSpace`: drop white space from both ends. -/
def goTrimSpace (s : Str) : Str :=
  (((s.dropWhile goIsSpace).reverse.dropWhile goIsSpace)).reverse

/-! ### Go `filepath.Base` (Unix) -/

/-- Embedding of Go `filepath.Base`: `Base("") = "."`; otherwise strip trailing
slashes, take the suffix after the last slash, and return `"/"` if that suffix
is empty (the path was all slashes). -/
def filepathBase (p : Str) : Str :=
  if p = [] then ['.']
  else
    let q := ((p.reverse.dropWhile (· = '/')).reverse)
    let r := (q.reverse.takeWhile (· ≠ '/')).reverse
    if r = [] then ['/'] else r

/-! ### Go `path.Clean` and `path.Join`

`path.Clean` is embedded by its documented lexical rules: split the path into
components, drop empty and `"."` components, process `".."` against a stack
(popping a previous component, absorbing at the root, or accumulating leading
`".."`s in a relative path), and re-render with a leading slash iff the input
was rooted, yielding `"."` for an empty relative result. -/

/-- The `".."` path component. -/
def dd : Str := ['.', '.']

/-- One step of the `path.Clean` component stack machine. -/
def cleanStep (rooted : Bool) (stk : List Str) (c : Str) : List Str :=
  if c = dd then
    match stk with
    | [] => if rooted then [] else [c]
    | t :: rest => if t = dd then c :: t :: rest else rest
  else c :: stk

/-- Process all components of a path through the `path.Clean` stack machine. -/
def cleanStack (rooted : Bool) (comps : List Str) : List Str :=
  comps.foldl (cleanStep rooted) []

/-- Join path components with `'/'` separators (no leading/trailing slash). -/
def joinSlash : List Str → Str
  | [] => []
  | [x] => x
  | x :: y :: xs => x ++ '/' :: joinSlash (y :: xs)

/-- Whether a path-component survives cleaning: non-empty and not `"."`. -/
def keepComp (c : Str) : Bool := !(c = [] || c = ['.'])

/-- Whether a path is rooted (begins with a slash). -/
def isRooted : Str → Bool
  | [] => false
  | c :: _ => c = '/'

/-- Render the cleaned components: leading slash iff rooted, `"."` for an
empty relative result. -/
def pathCleanCore (rooted : Bool) (comps : List Str) : Str :=
  let body := joinSlash ((cleanStack rooted comps).reverse)
  if rooted then '/' :: body
  else if body = [] then ['.'] else body

/-- Embedding of Go `path.Clean`. -/
def pathClean (p : Str) : Str :=
  if p = [] then ['.']
  else pathCleanCore (isRooted p) ((splitChar '/' p).filter keepComp)

/-- Embedding of Go `path.Join` for two elements: skip leading empty elements,
join the rest with `"/"`, and `Clean` the result (`Join("", "") = ""`). -/
def pathJoin (a b : Str) : Str :=
  if a ≠ [] then pathClean (a ++ '/' :: b)
  else if b ≠ [] then pathClean b
  else []

/-! ### `generateBindName` (source lines 427-433): FNV-1a 32-bit hash in hex -/

/-- UTF-8 encoding of one character, as Go `[]byte(string)` produces. -/
def utf8Bytes (c : Char) : List Nat :=
  let n := c.toNat
  if n < 128 then [n]
  else if n < 2048 then [192 ||| (n >>> 6), 128 ||| (n &&& 63)]
  else if n < 65536 then
    [224 ||| (n >>> 12), 128 ||| ((n >>> 6) &&& 63), 128 ||| (n &&& 63)]
  else
    [240 ||| (n >>> 18), 128 ||| ((n >>> 12) &&& 63),
     128 ||| ((n >>> 6) &&& 63), 128 ||| (n &&& 63)]

/-- The bytes of a string, as Go `hash.Write([]byte(s))` consumes them. -/
def strBytes (s : Str) : List Nat := s.flatMap utf8Bytes

/-- FNV-1a 32-bit hash of a byte sequence (`hash/fnv`, `New32a`). -/
def fnv1a32 (bytes : List Nat) : Nat :=
  bytes.foldl (fun h b => ((h ^^^ b) * 16777619) % 4294967296) 2166136261

/-- Embedding of `generateBindName`: `"local-shared-"` followed by the FNV-1a
32-bit hash of the directory path bytes then the class-name bytes, rendered as
lowercase hexadecimal (Go `fmt.Sprintf` with the lowercase hex verb). -/
def generateBindName (file cls : Str) : Str :=
  strL "local-shared-" ++ Nat.toDigits 16 (fnv1a32 (strBytes file ++ strBytes cls))

/-! ### Data model -/

/-- The fixed host root under which shared directories live (source line 68). -/
def rootfsDir : Str := strL "/rootfs"

/-- Embedding of `DiskLocation` (source lines 79-84). -/
structure DiskLocation where
  diskNamePath : Str
  diskID : Str
  directoryPath : Str
  deriving DecidableEq

/-- Per-storage-class selection policy consumed by `findMatchingDisks`.
`deviceNames` and `deviceIDs` stand for the results of the configuration
object's `DeviceNames().List()` and `DeviceIDs().List()` accessors, and
`directoryPaths` for its `DirectoryPaths` field; the configuration schema
itself is an external collaborator of the core (spec section 3). -/
structure StorageClassDisks where
  deviceNames : List Str
  deviceIDs : List Str
  directoryPaths : List Str
  deriving DecidableEq

/-- Event reason codes used by the diskmaker (referenced from the source). -/
inductive EventReason where
  | ErrorRunningBlockList
  | ErrorReadingBlockList
  | ErrorListingDeviceID
  | ErrorFindingMatchingDisk
  | ErrorCreatingSharedDir
  | FoundMatchingDisk
  deriving DecidableEq

/-- Modelled from the spec: an Event is an immutable record of one outcome,
with a kind (success/error), a reason code, a human message, and an optional
device path (spec section 3); the event constructors themselves live outside
the provided source files. -/
structure DiskEvent where
  isError : Bool
  reason : EventReason
  message : Str
  devicePath : Str
  deriving DecidableEq

/-- Modelled from the spec: `newEvent` builds an error-kind event. -/
def newEvent (r : EventReason) (message disk : Str) : DiskEvent :=
  ⟨true, r, message, disk⟩

/-- Modelled from the spec: `newSuccessEvent` builds a success-kind event. -/
def newSuccessEvent (r : EventReason) (message disk : Str) : DiskEvent :=
  ⟨false, r, message, disk⟩

/-! ### Filesystem model

Read-only system calls are an oracle (`FS`); the mutations a cycle performs
(`os.MkdirAll`, `os.Symlink`) are tracked in `FSState` so that later existence
checks observe them, as they do on the real filesystem. -/

/-- Oracle for the host filesystem's read-only behaviour and for the
success/failure of the mutating calls, with Go error messages as payloads. -/
structure FS where
  exists0 : Str → Bool
  evalSymlinks : Str → Except Str Str
  isDir : Str → Except Str Bool
  mkdirErr : Str → Option Str
  symlinkErr : Str → Str → Option Str

/-- Filesystem state during one cycle: the oracle plus the directories and
symlinks created so far. -/
structure FSState where
  fs : FS
  created : List Str
  linked : List Str

/-- Embedding of `fileExists` (source lines 392-398): `os.Stat` succeeds on
paths that existed at cycle start or were created during the cycle. -/
def fileExists (st : FSState) (p : Str) : Bool :=
  st.fs.exists0 p || st.created.contains p || st.linked.contains p

/-- Embedding of `os.MkdirAll`: either fails with the oracle's error, or
succeeds, creating the directory when it does not already exist. -/
def mkdirAll (st : FSState) (p : Str) : FSState × Option Str :=
  match st.fs.mkdirErr p with
  | some e => (st, some e)
  | none =>
      if fileExists st p then (st, none)
      else ({ st with created := p :: st.created }, none)

/-- Embedding of `os.Symlink target linkPath`: either fails with the oracle's
error, or records the new link. -/
def symlinkCall (st : FSState) (target linkPath : Str) : FSState × Option Str :=
  match st.fs.symlinkErr target linkPath with
  | some e => (st, some e)
  | none => ({ st with linked := linkPath :: st.linked }, none)

/-! ### Device enumeration and stable-ID resolution -/

/-- Embedding of `findNewDisks` (source lines 365-380): split the `lsblk`
output on newlines; for each line, trim white space and split on single
spaces; a line yielding exactly one field of positive length inserts that
field into the device set.  The Go function's error result is literally
always `nil` (line 379). -/
def findNewDisks (content : Str) : Finset Str × Option Str :=
  ((splitChar '\n' content).foldl
    (fun deviceSet line =>
      let deviceLine := goTrimSpace line
      let deviceDetails := splitChar ' ' deviceLine
      match deviceDetails with
      | [d] => if 0 < d.length then insert d deviceSet else deviceSet
      | _ => deviceSet)
    ∅, none)

/-- Embedding of `hasExactDisk` (source lines 382-389): the loop over the
set's sorted listing comparing for equality decides exactly membership. -/
def hasExactDisk (disks : Finset Str) (device : Str) : Bool :=
  decide (device ∈ disks)

/-- Embedding of `findStableDeviceID` (source lines 351-363): scan the
identifier paths, resolve each symbolic link (skipping failures), and return
the first identifier whose target's base name equals the requested name;
`none` stands for the "unable to find ID" error return. -/
def findStableDeviceID (fs : FS) (diskName : Str) : List Str → Option Str
  | [] => none
  | diskIDPath :: rest =>
      match fs.evalSymlinks diskIDPath with
      | .error _ => findStableDeviceID fs diskName rest
      | .ok diskDevPath =>
          if filepathBase diskDevPath = diskName then some diskIDPath
          else findStableDeviceID fs diskName rest

/-- Embedding of `findDeviceByID` (source lines 343-349): resolve the
identifier's symbolic link; on failure return the wrapping error message, on
success return the identifier together with the resolved device path. -/
def findDeviceByID (fs : FS) (deviceID : Str) : Except Str (Str × Str) :=
  match fs.evalSymlinks deviceID with
  | .error _ => .error (strL "unable to find device with id " ++ deviceID)
  | .ok diskDevPath => .ok (deviceID, diskDevPath)

/-! ### Selection matcher (`findMatchingDisks`, source lines 264-340)

The three selection passes of the per-class loop body are given names here;
`findMatchingDisks` composes them in source order (names, then IDs, then
directories) and folds every produced location into the class map exactly as
the source's `addDiskToMap` calls do. -/

/-- The device-name pass (source lines 278-292): a configured device path
whose base name is in the unmounted set yields one location, with the stable
identifier when resolution succeeds and an empty identifier when it fails. -/
def deviceNamePass (fs : FS) (deviceSet : Finset Str) (allDiskIds : List Str) :
    List Str → List DiskLocation
  | [] => []
  | diskName :: rest =>
      let tl := deviceNamePass fs deviceSet allDiskIds rest
      let baseDeviceName := filepathBase diskName
      if hasExactDisk deviceSet baseDeviceName then
        match findStableDeviceID fs baseDeviceName allDiskIds with
        | none => ⟨diskName, [], []⟩ :: tl
        | some matchedDeviceID => ⟨diskName, matchedDeviceID, []⟩ :: tl
      else tl

/-- The device-ID pass (source lines 294-310): reverse-resolve each
configured identifier; on failure report an error event naming the identifier
and skip it; on success add a location only when the resolved device's base
name is in the unmounted set. -/
def deviceIDPass (fs : FS) (deviceSet : Finset Str) :
    List Str → List DiskEvent × List DiskLocation
  | [] => ([], [])
  | deviceID :: rest =>
      let tl := deviceIDPass fs deviceSet rest
      match findDeviceByID fs deviceID with
      | .error err =>
          (newEvent .ErrorFindingMatchingDisk
              (strL "unable to add disk-id " ++ deviceID ++
               strL " to local disk pool: " ++ err) deviceID :: tl.1,
           tl.2)
      | .ok (matchedDeviceID, matchedDiskName) =>
          if hasExactDisk deviceSet (filepathBase matchedDiskName) then
            (tl.1, ⟨matchedDiskName, matchedDeviceID, []⟩ :: tl.2)
          else tl

/-- The directory pass (source lines 312-337): for each configured directory,
compute its host path under `rootfsDir`; if it exists, check it is a
directory (error event on check failure, silence on a non-directory) and add
a directory location when it is; if it does not exist, create it, adding a
directory location on success and reporting an error event on failure. -/
def directoryPass (st : FSState) :
    List Str → FSState × List DiskEvent × List DiskLocation
  | [] => (st, [], [])
  | directory :: rest =>
      let sharedDirPath := pathJoin rootfsDir directory
      if fileExists st sharedDirPath then
        match st.fs.isDir sharedDirPath with
        | .error err =>
            let tl := directoryPass st rest
            (tl.1,
             newEvent .ErrorCreatingSharedDir
                (strL "error checking shared dir " ++ sharedDirPath ++
                 strL ": " ++ err) [] :: tl.2.1,
             tl.2.2)
        | .ok true =>
            let tl := directoryPass st rest
            (tl.1, tl.2.1, ⟨[], [], sharedDirPath⟩ :: tl.2.2)
        | .ok false => directoryPass st rest
      else
        match mkdirAll st sharedDirPath with
        | (st1, some err) =>
            let tl := directoryPass st1 rest
            (tl.1,
             newEvent .ErrorCreatingSharedDir
                (strL "error creating shared dir " ++ sharedDirPath ++
                 strL ": " ++ err) [] :: tl.2.1,
             tl.2.2)
        | (st1, none) =>
            let tl := directoryPass st1 rest
            (tl.1, tl.2.1, ⟨[], [], sharedDirPath⟩ :: tl.2.2)

/-- Embedding of `addDiskToMap` (source lines 268-275) over the association
list representing the Go map: append the location to the class's array,
creating the entry if absent. -/
def updateMap : List (Str × List DiskLocation) → Str → DiskLocation →
    List (Str × List DiskLocation)
  | [], scName, loc => [(scName, [loc])]
  | (k, v) :: rest, scName, loc =>
      if k = scName then (k, v ++ [loc]) :: rest
      else (k, v) :: updateMap rest scName loc

/-- One iteration of the per-class loop of `findMatchingDisks`: the three
passes in source order, producing the new filesystem state, the events
reported during the iteration, and the locations added for the class. -/
def classAdditions (st : FSState) (deviceSet : Finset Str)
    (allDiskIds : List Str) (disks : StorageClassDisks) :
    FSState × List DiskEvent × List DiskLocation :=
  let nameLocs := deviceNamePass st.fs deviceSet allDiskIds disks.deviceNames
  let idR := deviceIDPass st.fs deviceSet disks.deviceIDs
  let dirR := directoryPass st disks.directoryPaths
  (dirR.1, idR.1 ++ dirR.2.1, nameLocs ++ idR.2 ++ dirR.2.2)

/-- Result of `findMatchingDisks`. -/
structure MatchResult where
  st : FSState
  map : List (Str × List DiskLocation)
  events : List DiskEvent
  err : Option Str

/-- The class loop of `findMatchingDisks`, threading the filesystem state and
the block-device map through the configured classes. -/
def findMatchingGo (deviceSet : Finset Str) (allDiskIds : List Str) :
    FSState → List (Str × List DiskLocation) →
    List (Str × StorageClassDisks) →
    FSState × List (Str × List DiskLocation) × List DiskEvent
  | st, m, [] => (st, m, [])
  | st, m, (storageClass, disks) :: rest =>
      let r := classAdditions st deviceSet allDiskIds disks
      let m1 := r.2.2.foldl (fun acc loc => updateMap acc storageClass loc) m
      let tl := findMatchingGo deviceSet allDiskIds r.1 m1 rest
      (tl.1, tl.2.1, r.2.1 ++ tl.2.2)

/-- Embedding of `findMatchingDisks` (source lines 264-340).  The error
result is literally always `nil` (line 339). -/
def findMatchingDisks (st : FSState) (cfg : List (Str × StorageClassDisks))
    (deviceSet : Finset Str) (allDiskIds : List Str) : MatchResult :=
  let r := findMatchingGo deviceSet allDiskIds st [] cfg
  ⟨r.1, r.2.1, r.2.2, none⟩

/-! ### Symlink materializer (`symLinkDisks` loop body, source lines 209-260) -/

/-- Processing of one assignment by the materializer loop body: ensure the
class directory exists; for a shared-directory assignment whose bind
placeholder exists, skip; otherwise (including for directory assignments with
no placeholder, which fall through in the source) compute the symlink path
from the device path's base name, skip if it exists, and attempt the link,
reporting an error event on failure — and, as the source does, the success
event unconditionally after the attempt.  The failure message renders the
enclosing `err` variable (necessarily `nil` at that point), hence the
`"<nil>"` suffix. -/
def processAssignment (symlinkLocation storageClass : Str) (st : FSState)
    (loc : DiskLocation) : FSState × List DiskEvent :=
  let symLinkDirPath := pathJoin symlinkLocation storageClass
  match mkdirAll st symLinkDirPath with
  | (st1, some err) =>
      (st1, [newEvent .ErrorFindingMatchingDisk
        (strL "error creating symlink dir " ++ symLinkDirPath ++
         strL ": " ++ err) []])
  | (st1, none) =>
      if loc.directoryPath ≠ [] ∧
         fileExists st1
           (pathJoin symLinkDirPath
             (generateBindName loc.directoryPath storageClass)) then
        (st1, [])
      else
        let baseDeviceName := filepathBase loc.diskNamePath
        let symLinkPath := pathJoin symLinkDirPath baseDeviceName
        if fileExists st1 symLinkPath then (st1, [])
        else
          let r :=
            if loc.diskID ≠ [] then symlinkCall st1 loc.diskID symLinkPath
            else symlinkCall st1 loc.diskNamePath symLinkPath
          let errEvents :=
            match r.2 with
            | some _ =>
                [newEvent .ErrorFindingMatchingDisk
                  (strL "error creating symlink " ++ symLinkPath ++
                   strL ": <nil>") loc.diskNamePath]
            | none => []
          (r.1, errEvents ++
            [newSuccessEvent .FoundMatchingDisk
              (strL "found matching disk " ++ baseDeviceName)
              loc.diskNamePath])

/-- The inner materializer loop over one class's assignment array. -/
def materializeClass (symlinkLocation storageClass : Str) :
    FSState → List DiskLocation → FSState × List DiskEvent
  | st, [] => (st, [])
  | st, loc :: rest =>
      let r := processAssignment symlinkLocation storageClass st loc
      let tl := materializeClass symlinkLocation storageClass r.1 rest
      (tl.1, r.2 ++ tl.2)

/-- The outer materializer loop over the class map. -/
def materialize (symlinkLocation : Str) :
    FSState → List (Str × List DiskLocation) → FSState × List DiskEvent
  | st, [] => (st, [])
  | st, (storageClass, deviceArray) :: rest =>
      let r := materializeClass symlinkLocation storageClass st deviceArray
      let tl := materialize symlinkLocation r.1 rest
      (tl.1, r.2 ++ tl.2)

/-- Embedding of `symLinkDisks` (source lines 156-262) from the point where
the external `lsblk` invocation and the `/dev/disk/by-id` glob have produced
their results (both are external collaborators; an `error` value stands for a
failed invocation).  Returns the final filesystem state and the event trace
in report order. -/
def symLinkDisks (symlinkLocation : Str) (st : FSState)
    (cfg : List (Str × StorageClassDisks)) (lsblkOut : Except Str Str)
    (globOut : Except Str (List Str)) : FSState × List DiskEvent :=
  match lsblkOut with
  | .error e =>
      (st, [newEvent .ErrorRunningBlockList (strL "error running lsblk: " ++ e) []])
  | .ok content =>
      match findNewDisks content with
      | (deviceSet, errRead) =>
        match errRead with
        | some e =>
            (st, [newEvent .ErrorReadingBlockList
              (strL "error reading blocklist: " ++ e) []])
        | none =>
          match globOut with
          | .error e =>
              (st, [newEvent .ErrorListingDeviceID
                (strL "error listing disks in /dev/disk/by-id: " ++ e) []])
          | .ok allDiskIds =>
            let r := findMatchingDisks st cfg deviceSet allDiskIds
            match r.err with
            | some e =>
                (r.st, r.events ++ [newEvent .ErrorFindingMatchingDisk
                  (strL "eror finding matching disks: " ++ e) []])
            | none =>
              if r.map = [] then
                (r.st, r.events ++ [newEvent .ErrorFindingMatchingDisk
                  (strL "found empty matching device list") []])
              else
                let m := materialize symlinkLocation r.st r.map
                (m.1, r.events ++ m.2)

/-! ## Lemmas about `splitChar` and `goTrimSpace` -/

/-! ### Derived notions and concrete filesystem fixtures

Named predicates and measures used by the statements below, and the
concrete filesystem oracles at which claims are evaluated. -/

/-- The contribution of one `lsblk` output line to the unmounted-device set,
mirroring the loop body of `findNewDisks`. -/
def lineDevice (line : Str) : Option Str :=
  match splitChar ' ' (goTrimSpace line) with
  | [d] => if 0 < d.length then some d else none
  | _ => none

/-- A stack reachable by the relative-path machine: possibly some leading
`".."`s at the bottom, i.e. the list is `t ++ replicate k ".."` with no
`".."` in `t`. -/
def ShapeOK (s : List Str) : Prop :=
  ∃ t k, s = t ++ List.replicate k dd ∧ ∀ x ∈ t, x ≠ dd

/-- Witness for C10: a concrete directory assignment with no placeholder. -/
def fsW10 : FS where
  exists0 := fun _ => false
  evalSymlinks := fun _ => .error (strL "x")
  isDir := fun _ => .ok true
  mkdirErr := fun _ => none
  symlinkErr := fun _ _ => none

/-- Witness for C8: re-running against an already-materialized state. -/
def fsW8 : FS where
  exists0 := fun p =>
    p == strL "/mnt/local-storage/ssd" || p == strL "/mnt/local-storage/ssd/sda"
  evalSymlinks := fun _ => .error (strL "x")
  isDir := fun _ => .ok true
  mkdirErr := fun _ => none
  symlinkErr := fun _ _ => some (strL "should not be called")

/-- Filesystem for the C1 failing input: the class directory exists, the
symlink path does not, and the symlink creation call fails. -/
def fsB1 : FS where
  exists0 := fun p => p == strL "/mnt/local-storage/ssd"
  evalSymlinks := fun _ => .error (strL "x")
  isDir := fun _ => .ok true
  mkdirErr := fun _ => none
  symlinkErr := fun _ _ => some (strL "permission denied")

/-- Filesystem for the C7 counterexample and witness: the computed host path
exists and the verification check succeeds reporting a non-directory. -/
def fsB7 : FS where
  exists0 := fun p => p == strL "/rootfs/baddir"
  evalSymlinks := fun _ => .error (strL "x")
  isDir := fun _ => .ok false
  mkdirErr := fun _ => none
  symlinkErr := fun _ _ => none

/-- Filesystem for the C6 witness: a broken identifier link. -/
def fsW6 : FS where
  exists0 := fun _ => false
  evalSymlinks := fun p =>
    if p == strL "/dev/disk/by-id/ata-X" then .error (strL "lstat") else .ok (strL "/dev/sdb")
  isDir := fun _ => .ok true
  mkdirErr := fun _ => none
  symlinkErr := fun _ _ => none

/-- The C4 invariant for one assignment: exactly one of the device path and
the directory path is non-empty. -/
def LocInvariant (loc : DiskLocation) : Prop :=
  (loc.diskNamePath ≠ [] ∧ loc.directoryPath = []) ∨
  (loc.diskNamePath = [] ∧ loc.directoryPath ≠ [])

/-- Filesystem for the C4 witness: stable-ID resolution always fails, so the
name pass falls back to the raw device path. -/
def fsW4 : FS where
  exists0 := fun _ => false
  evalSymlinks := fun _ => .error (strL "x")
  isDir := fun _ => .ok true
  mkdirErr := fun _ => none
  symlinkErr := fun _ _ => none

/-- Number of device-based assignments in a list whose device path has the
given base name. -/
def countDev (locs : List DiskLocation) (b : Str) : Nat :=
  locs.countP (fun loc =>
    decide (loc.directoryPath = [] ∧ filepathBase loc.diskNamePath = b))

/-- Lookup in the association list representing the Go class map. -/
def lookupSC : List (Str × List DiskLocation) → Str → List DiskLocation
  | [], _ => []
  | (k, v) :: rest, sc => if k = sc then v else lookupSC rest sc

/-- Filesystem for the C3 witness: the identifier resolves to the device
matched by name. -/
def fsW3 : FS where
  exists0 := fun _ => false
  evalSymlinks := fun _ => .ok (strL "/dev/sda")
  isDir := fun _ => .ok true
  mkdirErr := fun _ => none
  symlinkErr := fun _ _ => none

/-- The first seven characters of an event's message, used to tell the
distinct report sites apart. -/
def msgTag (e : DiskEvent) : Str := e.message.take 7

/-- The aggregate empty-match event (source lines 201-207). -/
def aggEvent : DiskEvent :=
  newEvent .ErrorFindingMatchingDisk (strL "found empty matching device list") []

/-- Classification of every event reported by the matcher and the
materializer loop bodies: its reason code and message tag. -/
def preAggOK (e : DiskEvent) : Prop :=
  (e.reason = .ErrorFindingMatchingDisk ∨ e.reason = .ErrorCreatingSharedDir ∨
   e.reason = .FoundMatchingDisk) ∧
  (msgTag e = strL "unable " ∨ msgTag e = strL "error c" ∨ msgTag e = strL "found m")

theorem splitChar_cons_pos {sep c : Char} (cs : Str) (h : c = sep) :
    splitChar sep (c :: cs) = [] :: splitChar sep cs := by
  simp [splitChar, h]

theorem splitChar_cons_neg {sep c : Char} (cs : Str) (h : c ≠ sep) :
    splitChar sep (c :: cs) =
      (c :: (splitChar sep cs).headD []) :: (splitChar sep cs).tail := by
  simp [splitChar, h]

theorem splitChar_ne_nil (sep : Char) (l : Str) : splitChar sep l ≠ [] := by
  cases l with
  | nil => simp [splitChar]
  | cons c cs => simp only [splitChar]; split <;> simp

theorem splitChar_sep_not_mem (sep : Char) (l : Str) :
    ∀ x ∈ splitChar sep l, sep ∉ x := by
  induction l with
  | nil => simp [splitChar]
  | cons c cs ih =>
      intro x hx
      simp only [splitChar] at hx
      by_cases hc : c = sep
      · simp [hc] at hx
        rcases hx with h | h
        · simp [h]
        · exact ih x h
      · simp [hc] at hx
        rcases hx with h | h
        · subst h
          intro hmem
          rcases List.mem_cons.mp hmem with h1 | h1
          · exact hc h1.symm
          · rcases hr : splitChar sep cs with _ | ⟨f, rest⟩
            · exact splitChar_ne_nil sep cs hr
            · have : sep ∉ f := ih f (by simp [hr])
              simp [hr] at h1
              exact this h1
        · rcases hr : splitChar sep cs with _ | ⟨f, rest⟩
          · exact absurd hr (splitChar_ne_nil sep cs)
          · simp [hr] at h
            exact ih x (by simp [hr, h])

theorem splitChar_append_sep (sep : Char) (a b : Str) :
    splitChar sep (a ++ sep :: b) = splitChar sep a ++ splitChar sep b := by
  induction a with
  | nil =>
      rw [List.nil_append, splitChar_cons_pos b rfl]
      rfl
  | cons c cs ih =>
      by_cases hc : c = sep
      · rw [List.cons_append, splitChar_cons_pos _ hc, splitChar_cons_pos _ hc,
          ih, List.cons_append]
      · rw [List.cons_append, splitChar_cons_neg _ hc, splitChar_cons_neg _ hc, ih]
        rcases hr : splitChar sep cs with _ | ⟨f, rest⟩
        · exact absurd hr (splitChar_ne_nil sep cs)
        · simp [hr]

theorem splitChar_of_not_mem {sep : Char} {l : Str} (h : sep ∉ l) :
    splitChar sep l = [l] := by
  induction l with
  | nil => simp [splitChar]
  | cons c cs ih =>
      have hc : c ≠ sep := fun he => h (by simp [he])
      have hcs : sep ∉ cs := fun hm => h (by simp [hm])
      simp [splitChar, hc, ih hcs]

theorem splitChar_head_ne_nil {sep : Char} {l : Str} (hne : l ≠ [])
    (hh : l.head? ≠ some sep) :
    ∃ h t, splitChar sep l = h :: t ∧ h ≠ [] := by
  rcases l with _ | ⟨c, cs⟩
  · exact absurd rfl hne
  · have hc : c ≠ sep := by simpa using hh
    rcases hr : splitChar sep cs with _ | ⟨f, rest⟩
    · exact absurd hr (splitChar_ne_nil sep cs)
    · exact ⟨c :: f, rest, by simp [splitChar, hc, hr], by simp⟩

theorem splitChar_getLast_ne_nil {sep : Char} {l : Str} (hne : l ≠ [])
    (hh : l.getLast? ≠ some sep) :
    ∃ g gs, splitChar sep l = gs ++ [g] ∧ g ≠ [] := by
  induction l with
  | nil => exact absurd rfl hne
  | cons c cs ih =>
      rcases cs with _ | ⟨c', cs'⟩
      · have hc : c ≠ sep := by simpa [List.getLast?] using hh
        exact ⟨[c], [], by simp [splitChar, hc], by simp⟩
      · have hh' : (c' :: cs').getLast? ≠ some sep := by
          simpa [List.getLast?_cons_cons] using hh
        obtain ⟨g, gs, hgs, hg⟩ := ih (by simp) hh'
        by_cases hc : c = sep
        · refine ⟨g, [] :: gs, ?_, hg⟩
          rw [splitChar_cons_pos _ hc, hgs]
          rfl
        · rcases gs with _ | ⟨f, rest⟩
          · refine ⟨c :: g, [], ?_, by simp⟩
            simp only [List.nil_append] at hgs
            rw [splitChar_cons_neg _ hc, hgs]
            rfl
          · refine ⟨g, (c :: f) :: rest, ?_, hg⟩
            rw [splitChar_cons_neg _ hc, hgs]
            rfl

theorem head?_dropWhile_false {p : Char → Bool} {l : Str} {c : Char}
    (h : (l.dropWhile p).head? = some c) : p c = false := by
  induction l with
  | nil => simp [List.dropWhile] at h
  | cons x xs ih =>
      simp only [List.dropWhile] at h
      by_cases hx : p x
      · exact ih (by simpa [hx] using h)
      · simp [hx] at h
        subst h
        simpa using hx

theorem getLast?_dropWhile {p : Char → Bool} {l : Str}
    (h : l.dropWhile p ≠ []) : (l.dropWhile p).getLast? = l.getLast? := by
  induction l with
  | nil => simp [List.dropWhile] at h
  | cons x xs ih =>
      by_cases hx : p x
      · have hxs : xs.dropWhile p ≠ [] := by
          simpa [List.dropWhile, hx] using h
        have hxsne : xs ≠ [] := by
          intro he; subst he; simp [List.dropWhile] at hxs
        rcases xs with _ | ⟨y, ys⟩
        · exact absurd rfl hxsne
        · rw [List.dropWhile_cons_of_pos hx, ih hxs, List.getLast?_cons_cons]
      · rw [List.dropWhile_cons_of_neg hx]

theorem goTrimSpace_head {s : Str} {c : Char}
    (h : (goTrimSpace s).head? = some c) : goIsSpace c = false := by
  unfold goTrimSpace at h
  rw [List.head?_reverse] at h
  have hne : (s.dropWhile goIsSpace).reverse.dropWhile goIsSpace ≠ [] := by
    intro he; rw [he] at h; simp at h
  rw [getLast?_dropWhile hne, List.getLast?_reverse] at h
  exact head?_dropWhile_false h

theorem goTrimSpace_getLast {s : Str} {c : Char}
    (h : (goTrimSpace s).getLast? = some c) : goIsSpace c = false := by
  unfold goTrimSpace at h
  rw [List.getLast?_reverse] at h
  exact head?_dropWhile_false h

/-! ## The unmounted-device parser (`findNewDisks`) -/

theorem findNewDisks_foldl (d : Str) (lines : List Str) (s0 : Finset Str) :
    d ∈ lines.foldl
      (fun deviceSet line =>
        let deviceLine := goTrimSpace line
        let deviceDetails := splitChar ' ' deviceLine
        match deviceDetails with
        | [x] => if 0 < x.length then insert x deviceSet else deviceSet
        | _ => deviceSet) s0 ↔
      d ∈ s0 ∨ ∃ l ∈ lines, lineDevice l = some d := by
  induction lines generalizing s0 with
  | nil => simp
  | cons l ls ih =>
      rw [List.foldl_cons, ih]
      have hstep : ∀ s : Finset Str,
          d ∈ (match splitChar ' ' (goTrimSpace l) with
               | [x] => if 0 < x.length then insert x s else s
               | _ => s) ↔ d ∈ s ∨ lineDevice l = some d := by
        intro s
        rcases h : splitChar ' ' (goTrimSpace l) with _ | ⟨x, _ | ⟨y, t⟩⟩
        · simp [lineDevice, h]
        · by_cases hx : 0 < x.length
          · simp [lineDevice, h, hx, Finset.mem_insert, eq_comm, or_comm]
          · simp [lineDevice, h, hx]
        · simp [lineDevice, h]
      rw [hstep s0]
      simp only [List.mem_cons]
      constructor
      · rintro ((h | h) | ⟨a, ha, hd⟩)
        · exact Or.inl h
        · exact Or.inr ⟨l, Or.inl rfl, h⟩
        · exact Or.inr ⟨a, Or.inr ha, hd⟩
      · rintro (h | ⟨a, (rfl | ha), hd⟩)
        · exact Or.inl (Or.inl h)
        · exact Or.inl (Or.inr hd)
        · exact Or.inr ⟨a, ha, hd⟩

theorem mem_findNewDisks (content d : Str) :
    d ∈ (findNewDisks content).1 ↔
      ∃ l ∈ splitChar '\n' content, lineDevice l = some d := by
  have := findNewDisks_foldl d (splitChar '\n' content) ∅
  simpa [findNewDisks] using this

theorem goIsSpace_space : goIsSpace ' ' = true := by decide

theorem filter_singleton_of_trimmed {line d : Str}
    (h : (splitChar ' ' (goTrimSpace line)).filter (fun f => !f.isEmpty) = [d]) :
    splitChar ' ' (goTrimSpace line) = [d] ∧ d ≠ [] := by
  rcases hl0 : goTrimSpace line with _ | ⟨c, cs⟩
  · rw [hl0] at h
    simp [splitChar, List.filter] at h
  · have hc : goIsSpace c = false := goTrimSpace_head (by rw [hl0]; rfl)
    have hcs : c ≠ ' ' := fun he => by rw [he, goIsSpace_space] at hc; cases hc
    have hhead : (c :: cs).head? ≠ some ' ' := by simpa using hcs
    obtain ⟨h0, t0, hsplit, hh0⟩ :=
      @splitChar_head_ne_nil ' ' (c :: cs) (by simp) hhead
    have hlast : (c :: cs).getLast? ≠ some ' ' := by
      intro hgl
      have := goTrimSpace_getLast (s := line) (by rw [hl0]; exact hgl)
      rw [goIsSpace_space] at this
      cases this
    obtain ⟨g, gs, hgs, hg⟩ :=
      @splitChar_getLast_ne_nil ' ' (c :: cs) (by simp) hlast
    rw [hl0] at h
    rcases t0 with _ | ⟨y, t'⟩
    · rw [hsplit] at h
      have hpred : (!h0.isEmpty) = true := by
        rcases h0 with _ | _
        · exact absurd rfl hh0
        · rfl
      rw [List.filter_cons, if_pos hpred, List.filter_nil] at h
      have : h0 = d := by injection h
      subst this
      exact ⟨hsplit, hh0⟩
    · exfalso
      rw [hsplit] at h hgs
      have hpred : (!h0.isEmpty) = true := by
        rcases h0 with _ | _
        · exact absurd rfl hh0
        · rfl
      rw [List.filter_cons, if_pos hpred] at h
      have htail : (y :: t').filter (fun f => !f.isEmpty) = [] :=
        (List.cons.injEq _ _ _ _ ▸ h : _ ∧ _).2
      have hgmem : g ∈ y :: t' := by
        rcases gs with _ | ⟨f0, gs'⟩
        · simp at hgs
        · have : y :: t' = gs' ++ [g] := by
            simpa using congrArg List.tail hgs
          rw [this]
          simp
      have := List.filter_eq_nil_iff.mp htail g hgmem
      simp only [Bool.not_eq_true'] at this
      rcases g with _ | _
      · exact hg rfl
      · simp [List.isEmpty] at this


/-! ## Claim C2 -/

/-- C2: for every input to `findNewDisks` and every line of it, a trimmed line
splitting on single spaces into exactly one non-empty field has that field in
the resulting device set; a line with zero non-empty fields, or with a second
field at all (in particular a non-empty mount-point field), contributes no
device; and membership in the set is exactly per-line contribution, so a
device whose line carries a mount-point field never enters the set from that
line. -/
theorem claim_C2 (content line : Str) (hline : line ∈ splitChar '\n' content) :
    (∀ d, (splitChar ' ' (goTrimSpace line)).filter (fun f => !f.isEmpty) = [d] →
        d ∈ (findNewDisks content).1) ∧
    ((splitChar ' ' (goTrimSpace line)).filter (fun f => !f.isEmpty) = [] →
        lineDevice line = none) ∧
    (∀ nm mp rest, splitChar ' ' (goTrimSpace line) = nm :: mp :: rest →
        lineDevice line = none) ∧
    (∀ d, d ∈ (findNewDisks content).1 ↔
        ∃ l ∈ splitChar '\n' content, lineDevice l = some d) := by
  refine ⟨?_, ?_, ?_, fun d => mem_findNewDisks content d⟩
  · intro d hd
    obtain ⟨hsplit, hne⟩ := filter_singleton_of_trimmed hd
    rw [mem_findNewDisks]
    exact ⟨line, hline, by simp [lineDevice, hsplit, List.length_pos.mpr hne]⟩
  · intro hnil
    unfold lineDevice
    rcases h : splitChar ' ' (goTrimSpace line) with _ | ⟨x, _ | ⟨y, t⟩⟩
    · rfl
    · rw [h] at hnil
      rcases x with _ | ⟨a, as⟩
      · rfl
      · simp [List.filter] at hnil
    · rfl
  · intro nm mp rest h
    simp [lineDevice, h]

/-- Witness for C2 at a concrete `lsblk` output. -/
theorem claim_C2_witness :
    strL "sda" ∈ (findNewDisks (strL "sda\nsdb /mnt")).1 :=
  (claim_C2 (strL "sda\nsdb /mnt") (strL "sda") (by decide)).1
    (strL "sda") (by decide)


/-! ## Lemmas about `path.Clean` -/

theorem pathCleanCore_ne_nil (rooted : Bool) (comps : List Str) :
    pathCleanCore rooted comps ≠ [] := by
  unfold pathCleanCore
  cases rooted
  · simp only [Bool.false_eq_true, if_false]
    split <;> simp_all
  · simp

theorem pathClean_ne_nil (p : Str) : pathClean p ≠ [] := by
  unfold pathClean
  split
  · simp
  · exact pathCleanCore_ne_nil _ _

theorem pathJoin_left_ne_nil {a : Str} (b : Str) (ha : a ≠ []) :
    pathJoin a b = pathClean (a ++ '/' :: b) := by
  simp [pathJoin, ha]

theorem pathJoin_ne_nil {a : Str} (b : Str) (ha : a ≠ []) :
    pathJoin a b ≠ [] := by
  rw [pathJoin_left_ne_nil b ha]
  exact pathClean_ne_nil _

theorem cleanStep_dd_nil (rooted : Bool) :
    cleanStep rooted [] dd = if rooted then [] else [dd] := by
  simp [cleanStep]

theorem cleanStep_dd_cons (rooted : Bool) (t : Str) (rest : List Str) :
    cleanStep rooted (t :: rest) dd = if t = dd then dd :: t :: rest else rest := by
  simp [cleanStep]

theorem cleanStep_not_dd (rooted : Bool) (stk : List Str) {c : Str} (h : c ≠ dd) :
    cleanStep rooted stk c = c :: stk := by
  simp [cleanStep, h]

theorem cleanStep_mem {rooted : Bool} {s0 : List Str} {c x : Str}
    (hx : x ∈ cleanStep rooted s0 c) : x ∈ s0 ∨ x = c := by
  by_cases hc : c = dd
  · subst hc
    rcases s0 with _ | ⟨t, rest⟩
    · rw [cleanStep_dd_nil] at hx
      cases rooted
      · simp at hx
        exact Or.inr hx
      · simp at hx
    · rw [cleanStep_dd_cons] at hx
      by_cases ht : t = dd
      · rw [if_pos ht] at hx
        rcases List.mem_cons.mp hx with h | h
        · exact Or.inr h
        · exact Or.inl h
      · rw [if_neg ht] at hx
        exact Or.inl (List.mem_cons_of_mem t hx)
  · rw [cleanStep_not_dd _ _ hc] at hx
    rcases List.mem_cons.mp hx with h | h
    · exact Or.inr h
    · exact Or.inl h

theorem foldl_cleanStep_mem (rooted : Bool) (cs : List Str) :
    ∀ (s0 : List Str), ∀ x ∈ cs.foldl (cleanStep rooted) s0, x ∈ s0 ∨ x ∈ cs := by
  induction cs with
  | nil => intro s0 x hx; exact Or.inl hx
  | cons c cs ih =>
      intro s0 x hx
      rw [List.foldl_cons] at hx
      rcases ih _ x hx with h | h
      · rcases cleanStep_mem h with h1 | h1
        · exact Or.inl h1
        · exact Or.inr (by simp [h1])
      · exact Or.inr (List.mem_cons_of_mem c h)

theorem mem_cleanStack {rooted : Bool} {comps : List Str} {x : Str}
    (hx : x ∈ cleanStack rooted comps) : x ∈ comps := by
  rcases foldl_cleanStep_mem rooted comps [] x hx with h | h
  · simp at h
  · exact h

theorem cleanStep_no_dd_true {s0 : List Str} {c : Str}
    (h0 : ∀ x ∈ s0, x ≠ dd) : ∀ x ∈ cleanStep true s0 c, x ≠ dd := by
  intro x hx
  by_cases hc : c = dd
  · subst hc
    rcases s0 with _ | ⟨t, rest⟩
    · rw [cleanStep_dd_nil] at hx
      simp at hx
    · have ht : t ≠ dd := h0 t (by simp)
      rw [cleanStep_dd_cons, if_neg ht] at hx
      exact h0 x (List.mem_cons_of_mem t hx)
  · rw [cleanStep_not_dd _ _ hc] at hx
    rcases List.mem_cons.mp hx with h | h
    · subst h; exact hc
    · exact h0 x h

theorem foldl_cleanStep_true_no_dd (cs : List Str) :
    ∀ (s0 : List Str), (∀ x ∈ s0, x ≠ dd) →
      ∀ x ∈ cs.foldl (cleanStep true) s0, x ≠ dd := by
  induction cs with
  | nil => intro s0 h0; exact h0
  | cons c cs ih =>
      intro s0 h0
      rw [List.foldl_cons]
      exact ih _ (cleanStep_no_dd_true h0)

theorem foldl_cleanStep_push_all (rooted : Bool) (cs : List Str) :
    ∀ (s0 : List Str), (∀ c ∈ cs, c ≠ dd) →
      cs.foldl (cleanStep rooted) s0 = cs.reverse ++ s0 := by
  induction cs with
  | nil => intro s0 _; simp
  | cons c cs ih =>
      intro s0 h
      rw [List.foldl_cons]
      have hc : c ≠ dd := h c (by simp)
      rw [cleanStep_not_dd _ _ hc, ih _ (fun x hx => h x (by simp [hx]))]
      simp

theorem foldl_cleanStep_dd_replicate (k : Nat) :
    ∀ (j : Nat), (List.replicate k dd).foldl (cleanStep false) (List.replicate j dd) =
      List.replicate (k + j) dd := by
  induction k with
  | zero => intro j; simp
  | succ k ih =>
      intro j
      rw [List.replicate_succ, List.foldl_cons]
      have hstep : cleanStep false (List.replicate j dd) dd = List.replicate (j + 1) dd := by
        rcases j with _ | j
        · rw [List.replicate_zero, cleanStep_dd_nil]
          rfl
        · rw [List.replicate_succ, cleanStep_dd_cons, if_pos rfl,
            List.replicate_succ, List.replicate_succ]
      rw [hstep, ih (j + 1)]
      congr 1
      omega

theorem cleanStep_shape {s0 : List Str} {c : Str} (h : ShapeOK s0) :
    ShapeOK (cleanStep false s0 c) := by
  obtain ⟨t, k, rfl, ht⟩ := h
  by_cases hc : c = dd
  · subst hc
    rcases t with _ | ⟨th, tt⟩
    · rcases k with _ | k
      · rw [List.replicate_zero, List.nil_append, cleanStep_dd_nil]
        exact ⟨[], 1, by simp, by simp⟩
      · rw [List.nil_append, List.replicate_succ, cleanStep_dd_cons, if_pos rfl]
        exact ⟨[], k + 2, by simp [List.replicate_succ], by simp⟩
    · have hth : th ≠ dd := ht th (by simp)
      rw [List.cons_append, cleanStep_dd_cons, if_neg hth]
      exact ⟨tt, k, rfl, fun x hx => ht x (List.mem_cons_of_mem th hx)⟩
  · rw [cleanStep_not_dd _ _ hc]
    refine ⟨c :: t, k, by simp, ?_⟩
    intro x hx
    rcases List.mem_cons.mp hx with h1 | h1
    · subst h1; exact hc
    · exact ht x h1

theorem cleanStack_false_shape (comps : List Str) : ShapeOK (cleanStack false comps) := by
  have : ∀ (s0 : List Str), ShapeOK s0 → ShapeOK (comps.foldl (cleanStep false) s0) := by
    induction comps with
    | nil => intro s0 h; exact h
    | cons c cs ih =>
        intro s0 h
        rw [List.foldl_cons]
        exact ih _ (cleanStep_shape h)
  exact this [] ⟨[], 0, by simp, by simp⟩

theorem cleanStack_false_roundtrip (comps : List Str) :
    cleanStack false ((cleanStack false comps).reverse) = cleanStack false comps := by
  obtain ⟨t, k, heq, ht⟩ := cleanStack_false_shape comps
  have h1 : (List.replicate k dd).foldl (cleanStep false) ([] : List Str) =
      List.replicate k dd := by
    simpa using foldl_cleanStep_dd_replicate k 0
  have h2 := foldl_cleanStep_push_all false t.reverse (List.replicate k dd)
    (fun x hx => ht x (List.mem_reverse.mp hx))
  calc cleanStack false ((cleanStack false comps).reverse)
      = (List.replicate k dd ++ t.reverse).foldl (cleanStep false) [] := by
        rw [heq, List.reverse_append, List.reverse_replicate]
        simp only [cleanStack]
    _ = (t.reverse).foldl (cleanStep false)
          ((List.replicate k dd).foldl (cleanStep false) []) :=
        List.foldl_append _ _ _ _
    _ = (t.reverse).foldl (cleanStep false) (List.replicate k dd) := by rw [h1]
    _ = (t.reverse).reverse ++ List.replicate k dd := h2
    _ = cleanStack false comps := by rw [List.reverse_reverse, ← heq]

theorem cleanStack_true_roundtrip (comps : List Str) :
    cleanStack true ((cleanStack true comps).reverse) = cleanStack true comps := by
  have hnd : ∀ x ∈ cleanStack true comps, x ≠ dd :=
    fun x hx => foldl_cleanStep_true_no_dd comps [] (by simp) x hx
  have h := foldl_cleanStep_push_all true ((cleanStack true comps).reverse) []
    (fun x hx => hnd x (List.mem_reverse.mp hx))
  calc cleanStack true ((cleanStack true comps).reverse)
      = ((cleanStack true comps).reverse).reverse ++ [] := by
        simp only [cleanStack] at h ⊢
        exact h
    _ = cleanStack true comps := by simp

theorem joinSlash_cons_head {x : Str} (xs : List Str) (hx : x ≠ []) :
    (joinSlash (x :: xs)).head? = x.head? := by
  rcases xs with _ | ⟨y, ys⟩
  · rfl
  · exact List.head?_append_of_ne_nil x hx

theorem splitChar_joinSlash {s : List Str} (hne : s ≠ [])
    (h : ∀ x ∈ s, x ≠ [] ∧ '/' ∉ x) : splitChar '/' (joinSlash s) = s := by
  induction s with
  | nil => exact absurd rfl hne
  | cons x xs ih =>
      rcases xs with _ | ⟨y, ys⟩
      · exact splitChar_of_not_mem (h x (by simp)).2
      · rw [show joinSlash (x :: y :: ys) = x ++ '/' :: joinSlash (y :: ys) from rfl,
          splitChar_append_sep, splitChar_of_not_mem (h x (by simp)).2,
          ih (by simp) (fun z hz => h z (by simp [hz]))]
        rfl


/-! ## Stability of cleaned paths under appending a trailing `"/."` -/

theorem keepComp_eq_true {x : Str} (h1 : x ≠ []) (h2 : x ≠ ['.']) :
    keepComp x = true := by
  simp [keepComp, h1, h2]

theorem pathCleanCore_stable (rooted : Bool) (comps : List Str)
    (hcomps : ∀ x ∈ comps, x ≠ [] ∧ x ≠ ['.'] ∧ '/' ∉ x) :
    pathClean (pathCleanCore rooted comps ++ ['/', '.']) =
      pathCleanCore rooted comps := by
  have hstk : ∀ x ∈ (cleanStack rooted comps).reverse,
      x ≠ [] ∧ x ≠ ['.'] ∧ '/' ∉ x :=
    fun x hx => hcomps x (mem_cleanStack (List.mem_reverse.mp hx))
  have hsplit_dot : splitChar '/' ['.'] = [['.']] := rfl
  cases rooted with
  | true =>
      have hR : pathCleanCore true comps =
          '/' :: joinSlash ((cleanStack true comps).reverse) := by
        simp [pathCleanCore]
      rw [hR]
      have harg : ('/' :: joinSlash ((cleanStack true comps).reverse)) ++ ['/', '.'] =
          '/' :: (joinSlash ((cleanStack true comps).reverse) ++ '/' :: ['.']) := by
        simp
      rw [harg, pathClean, if_neg (by simp)]
      have hroot : isRooted
          ('/' :: (joinSlash ((cleanStack true comps).reverse) ++ '/' :: ['.'])) = true := by
        simp [isRooted]
      rw [hroot, splitChar_cons_pos _ rfl, splitChar_append_sep, hsplit_dot]
      rcases hs : (cleanStack true comps).reverse with _ | ⟨x, xs⟩
      · decide
      · rw [← hs]
        have hne : (cleanStack true comps).reverse ≠ [] := by simp [hs]
        rw [splitChar_joinSlash hne (fun z hz => ⟨(hstk z hz).1, (hstk z hz).2.2⟩)]
        have hfilter : ((([] : Str) :: ((cleanStack true comps).reverse ++ [['.']])).filter keepComp) =
            (cleanStack true comps).reverse := by
          rw [List.filter_cons, List.filter_append]
          have h0 : keepComp ([] : Str) = false := rfl
          have h1 : ([['.']] : List Str).filter keepComp = [] := rfl
          rw [h0, h1]
          simp only [Bool.false_eq_true, if_false, List.append_nil]
          exact List.filter_eq_self.mpr
            (fun a ha => keepComp_eq_true (hstk a ha).1 (hstk a ha).2.1)
        rw [hfilter]
        simp [pathCleanCore, cleanStack_true_roundtrip]
  | false =>
      rcases hbody : joinSlash ((cleanStack false comps).reverse) with _ | ⟨b0, brest⟩
      · have hR : pathCleanCore false comps = ['.'] := by
          simp [pathCleanCore, hbody]
        rw [hR]
        decide
      · have hR : pathCleanCore false comps = b0 :: brest := by
          simp [pathCleanCore, hbody]
        rw [hR]
        have hsne : (cleanStack false comps).reverse ≠ [] := by
          intro he
          rw [he] at hbody
          simp [joinSlash] at hbody
        obtain ⟨x, xs, hxs⟩ : ∃ x xs, (cleanStack false comps).reverse = x :: xs := by
          rcases h : (cleanStack false comps).reverse with _ | ⟨x, xs⟩
          · exact absurd h hsne
          · exact ⟨x, xs, rfl⟩
        have hxne : x ≠ [] := (hstk x (by rw [hxs]; simp)).1
        have hb0 : b0 ∉ (['/'] : Str) → True := fun _ => trivial
        have hhead : (b0 :: brest).head? = x.head? := by
          rw [← hbody, hxs]
          exact joinSlash_cons_head xs hxne
        have hb0x : some b0 = x.head? := by simpa using hhead
        have hb0mem : b0 ∈ x := by
          rcases x with _ | ⟨c, cs⟩
          · exact absurd rfl hxne
          · simp at hb0x
            simp [hb0x]
        have hb0slash : b0 ≠ '/' := by
          intro he
          exact (hstk x (by rw [hxs]; simp)).2.2 (he ▸ hb0mem)
      -- compute the clean of `body ++ "/."`
        rw [show (b0 :: brest) ++ ['/', '.'] = b0 :: (brest ++ '/' :: ['.']) from by simp,
          pathClean, if_neg (by simp)]
        have hroot : isRooted (b0 :: (brest ++ '/' :: ['.'])) = false := by
          simp [isRooted, hb0slash]
        rw [hroot]
        have harg2 : b0 :: (brest ++ '/' :: ['.']) =
            (b0 :: brest) ++ '/' :: ['.'] := by simp
        rw [harg2, splitChar_append_sep, hsplit_dot, ← hbody, hxs]
        rw [← hxs, splitChar_joinSlash hsne
          (fun z hz => ⟨(hstk z hz).1, (hstk z hz).2.2⟩)]
        have hfilter : (((cleanStack false comps).reverse ++ [['.']]).filter keepComp) =
            (cleanStack false comps).reverse := by
          rw [List.filter_append]
          have h1 : ([['.']] : List Str).filter keepComp = [] := rfl
          rw [h1, List.append_nil]
          exact List.filter_eq_self.mpr
            (fun a ha => keepComp_eq_true (hstk a ha).1 (hstk a ha).2.1)
        rw [hfilter]
        simp only [pathCleanCore, cleanStack_false_roundtrip]
        rw [hbody]
        simp

theorem pathClean_stable (p : Str) :
    pathClean (pathClean p ++ ['/', '.']) = pathClean p := by
  by_cases hp : p = []
  · subst hp
    decide
  · have hrep : pathClean p =
        pathCleanCore (isRooted p) ((splitChar '/' p).filter keepComp) := by
      rw [pathClean, if_neg hp]
    rw [hrep]
    apply pathCleanCore_stable
    intro x hx
    have hmem := List.mem_filter.mp hx
    have hk := hmem.2
    simp only [keepComp, Bool.not_eq_true', Bool.or_eq_false_iff,
      decide_eq_false_iff_not] at hk
    exact ⟨hk.1, hk.2, splitChar_sep_not_mem '/' p x hmem.1⟩

theorem pathJoin_clean_dot {a : Str} (b : Str) (ha : a ≠ []) :
    pathJoin (pathJoin a b) ['.'] = pathJoin a b := by
  have hne : pathJoin a b ≠ [] := pathJoin_ne_nil b ha
  rw [pathJoin_left_ne_nil ['.'] hne, pathJoin_left_ne_nil b ha]
  exact pathClean_stable _


/-! ## Small facts about the filesystem state -/

theorem mkdirAll_fs (st : FSState) (p : Str) : (mkdirAll st p).1.fs = st.fs := by
  unfold mkdirAll
  rcases h : st.fs.mkdirErr p with _ | e
  · dsimp only
    split <;> rfl
  · rfl

theorem mkdirAll_linked (st : FSState) (p : Str) :
    (mkdirAll st p).1.linked = st.linked := by
  unfold mkdirAll
  rcases h : st.fs.mkdirErr p with _ | e
  · dsimp only
    split <;> rfl
  · rfl

theorem fileExists_mkdirAll_self {st : FSState} {p : Str}
    (h : (mkdirAll st p).2 = none) :
    fileExists (mkdirAll st p).1 p = true := by
  rcases he : st.fs.mkdirErr p with _ | e
  · unfold mkdirAll
    rw [he]
    dsimp only
    by_cases hex : fileExists st p
    · simp only [if_pos hex]
      exact hex
    · simp only [if_neg hex]
      simp [fileExists]
  · exfalso
    unfold mkdirAll at h
    rw [he] at h
    simp at h

/-! ## Claim C10 -/

/-- C10: a directory-based assignment (empty device path) never creates a
symbolic link and never yields a per-device success or error event, whether or
not the bind placeholder exists: with the placeholder the materializer skips,
and without it control falls through to the device branch, where the symlink
path computed from the empty device path cleans back to the class directory,
which exists after the `MkdirAll`, triggering the already-exists skip.  (The
symlink root is non-empty; the daemon exits at startup if it cannot create
it.) -/
theorem claim_C10 (symlinkLocation storageClass : Str) (st : FSState)
    (loc : DiskLocation) (hsl : symlinkLocation ≠ [])
    (hdir : loc.directoryPath ≠ []) (hdev : loc.diskNamePath = []) :
    (processAssignment symlinkLocation storageClass st loc).1.linked = st.linked ∧
    ∀ e ∈ (processAssignment symlinkLocation storageClass st loc).2,
      e.isError = true ∧ e.devicePath = [] := by
  unfold processAssignment
  dsimp only
  rcases hmk : mkdirAll st (pathJoin symlinkLocation storageClass) with ⟨st1, err⟩
  have hfs : st1.linked = st.linked := by
    have := mkdirAll_linked st (pathJoin symlinkLocation storageClass)
    rw [hmk] at this
    exact this
  rcases err with _ | msg
  · -- MkdirAll succeeded
    have hexd : fileExists st1 (pathJoin symlinkLocation storageClass) = true := by
      have := @fileExists_mkdirAll_self st
        (pathJoin symlinkLocation storageClass) (by rw [hmk])
      rw [hmk] at this
      exact this
    dsimp only
    by_cases hbind : fileExists st1
        (pathJoin (pathJoin symlinkLocation storageClass)
          (generateBindName loc.directoryPath storageClass)) = true
    · rw [if_pos ⟨hdir, hbind⟩]
      exact ⟨hfs, by simp⟩
    · rw [if_neg (fun hc => hbind hc.2)]
      rw [hdev]
      have hbase : filepathBase ([] : Str) = ['.'] := rfl
      rw [hbase, pathJoin_clean_dot storageClass hsl, if_pos hexd]
      exact ⟨hfs, by simp⟩
  · -- MkdirAll failed: one class-scoped error event with no device path
    dsimp only
    refine ⟨hfs, ?_⟩
    intro e he
    simp only [List.mem_singleton] at he
    subst he
    exact ⟨rfl, rfl⟩

theorem claim_C10_witness :
    (processAssignment (strL "/mnt/local-storage") (strL "nfs")
      ⟨fsW10, [], []⟩ ⟨[], [], strL "/rootfs/shared1"⟩).1.linked = [] ∧
    ∀ e ∈ (processAssignment (strL "/mnt/local-storage") (strL "nfs")
      ⟨fsW10, [], []⟩ ⟨[], [], strL "/rootfs/shared1"⟩).2,
      e.isError = true ∧ e.devicePath = [] :=
  claim_C10 (strL "/mnt/local-storage") (strL "nfs") ⟨fsW10, [], []⟩
    ⟨[], [], strL "/rootfs/shared1"⟩ (by decide) (by decide) rfl

/-! ## Claim C8 -/

/-- C8: for a device-based assignment whose symlink path already exists (in a
state where the class directory also already exists, as after a previous
materialization), the materializer changes nothing and emits no event:
re-running materialization is idempotent, with neither a created nor a failed
outcome. -/
theorem claim_C8 (symlinkLocation storageClass : Str) (st : FSState)
    (loc : DiskLocation) (h1 : loc.directoryPath = [])
    (h2 : st.fs.mkdirErr (pathJoin symlinkLocation storageClass) = none)
    (h3 : fileExists st (pathJoin symlinkLocation storageClass) = true)
    (h4 : fileExists st (pathJoin (pathJoin symlinkLocation storageClass)
            (filepathBase loc.diskNamePath)) = true) :
    processAssignment symlinkLocation storageClass st loc = (st, []) := by
  unfold processAssignment mkdirAll
  dsimp only
  rw [h2]
  dsimp only
  rw [if_pos h3]
  dsimp only
  have hcond : ¬(loc.directoryPath ≠ [] ∧ fileExists st
      (pathJoin (pathJoin symlinkLocation storageClass)
        (generateBindName loc.directoryPath storageClass)) = true) :=
    fun hc => hc.1 h1
  rw [if_neg hcond, if_pos h4]

theorem claim_C8_witness :
    processAssignment (strL "/mnt/local-storage") (strL "ssd")
      ⟨fsW8, [], []⟩ ⟨strL "/dev/sda", strL "/dev/disk/by-id/ata-1", []⟩ =
      (⟨fsW8, [], []⟩, []) :=
  claim_C8 (strL "/mnt/local-storage") (strL "ssd") ⟨fsW8, [], []⟩
    ⟨strL "/dev/sda", strL "/dev/disk/by-id/ata-1", []⟩
    rfl (by decide) (by decide) (by decide)

/-! ## Claim C1 (code bug) -/

/-- C1, evaluated at the failing input: when symlink creation fails for a
device-based assignment with no pre-existing file at the symlink path, the
source emits the error event naming the device AND ALSO the success event
naming the device (the success report is not skipped on failure), so the
claim's "no success event is reported" clause fails on the code. -/
theorem claim_C1 :
    (processAssignment (strL "/mnt/local-storage") (strL "ssd")
        ⟨fsB1, [], []⟩ ⟨strL "/dev/sda", [], []⟩).2 =
      [newEvent .ErrorFindingMatchingDisk
         (strL "error creating symlink /mnt/local-storage/ssd/sda: <nil>")
         (strL "/dev/sda"),
       newSuccessEvent .FoundMatchingDisk (strL "found matching disk sda")
         (strL "/dev/sda")] ∧
    (processAssignment (strL "/mnt/local-storage") (strL "ssd")
        ⟨fsB1, [], []⟩ ⟨strL "/dev/sda", [], []⟩).1.linked = [] := by
  constructor
  · rfl
  · rfl


/-! ## Claim C7 (corrected) -/

/-- C7, amended: in the directory pass, for a configured directory whose host
path already exists, no creation is ever attempted (the entry leaves the
filesystem state untouched); a failing directory-verification check yields one
error event and no assignment; an existing path that is not a directory
yields no assignment and — unlike the claim as stated — no event; and an
existing path verified to be a directory yields exactly the directory
assignment. -/
theorem claim_C7 (st : FSState) (directory : Str) (rest : List Str)
    (hex : fileExists st (pathJoin rootfsDir directory) = true) :
    (directoryPass st (directory :: rest)).1 = (directoryPass st rest).1 ∧
    (∀ em, st.fs.isDir (pathJoin rootfsDir directory) = .error em →
       directoryPass st (directory :: rest) =
         ((directoryPass st rest).1,
          newEvent .ErrorCreatingSharedDir
            (strL "error checking shared dir " ++ pathJoin rootfsDir directory ++
             strL ": " ++ em) [] :: (directoryPass st rest).2.1,
          (directoryPass st rest).2.2)) ∧
    (st.fs.isDir (pathJoin rootfsDir directory) = .ok false →
       directoryPass st (directory :: rest) = directoryPass st rest) ∧
    (st.fs.isDir (pathJoin rootfsDir directory) = .ok true →
       directoryPass st (directory :: rest) =
         ((directoryPass st rest).1, (directoryPass st rest).2.1,
          ⟨[], [], pathJoin rootfsDir directory⟩ :: (directoryPass st rest).2.2)) := by
  simp only [directoryPass]
  rw [if_pos hex]
  rcases hd : st.fs.isDir (pathJoin rootfsDir directory) with em | b
  · dsimp only
    refine ⟨rfl, ?_, ?_, ?_⟩
    · intro em' hem
      injection hem with h
      subst h
      rfl
    · intro hfalse
      exact absurd hfalse (by simp)
    · intro htrue
      exact absurd htrue (by simp)
  · rcases b with _ | _
    · dsimp only
      refine ⟨rfl, ?_, fun _ => rfl, ?_⟩
      · intro em hem
        exact absurd hem (by simp)
      · intro htrue
        simp at htrue
    · dsimp only
      refine ⟨rfl, ?_, ?_, fun _ => rfl⟩
      · intro em hem
        exact absurd hem (by simp)
      · intro hfalse
        simp at hfalse

/-- C7 counterexample: a configured directory whose host path exists but is
not a directory (verification succeeds with a non-directory result) produces
NO error event — the entry is skipped silently — contradicting the claim that
an error event is reported in that case.  (No assignment is produced, as the
claim says.) -/
theorem claim_C7_counterexample :
    fileExists ⟨fsB7, [], []⟩ (pathJoin rootfsDir (strL "baddir")) = true ∧
    FS.isDir fsB7 (pathJoin rootfsDir (strL "baddir")) = .ok false ∧
    (directoryPass ⟨fsB7, [], []⟩ [strL "baddir"]).2.1 = [] ∧
    (directoryPass ⟨fsB7, [], []⟩ [strL "baddir"]).2.2 = [] := by
  refine ⟨by decide, rfl, rfl, rfl⟩

/-- Witness for the amended C7 at the concrete non-directory input. -/
theorem claim_C7_witness :
    directoryPass ⟨fsB7, [], []⟩ [strL "baddir"] = directoryPass ⟨fsB7, [], []⟩ [] :=
  (claim_C7 ⟨fsB7, [], []⟩ (strL "baddir") [] (by decide)).2.2.1 rfl


/-! ## Claim C6 -/

theorem deviceIDPass_append (fs : FS) (deviceSet : Finset Str) (a b : List Str) :
    deviceIDPass fs deviceSet (a ++ b) =
      ((deviceIDPass fs deviceSet a).1 ++ (deviceIDPass fs deviceSet b).1,
       (deviceIDPass fs deviceSet a).2 ++ (deviceIDPass fs deviceSet b).2) := by
  induction a with
  | nil => simp [deviceIDPass]
  | cons i a ih =>
      simp only [List.cons_append, deviceIDPass, ih]
      rcases hfd : findDeviceByID fs i with e | ⟨mid, mname⟩
      · simp [ih]
      · by_cases hg : hasExactDisk deviceSet (filepathBase mname) = true
        · simp [hg, ih]
        · simp [hg, ih]

/-- C6: in the device-ID pass, a configured identifier whose reverse
resolution fails contributes exactly one error event naming the identifier
and no assignment, with the surrounding identifiers processed exactly as they
would be alone; an identifier that resolves contributes no event, and an
assignment exactly when the resolved device path's base name is in the
unmounted-device set. -/
theorem claim_C6 (fs : FS) (deviceSet : Finset Str) (ids1 ids2 : List Str)
    (deviceID : Str) :
    (∀ em, fs.evalSymlinks deviceID = .error em →
       deviceIDPass fs deviceSet (ids1 ++ deviceID :: ids2) =
         ((deviceIDPass fs deviceSet ids1).1 ++
            newEvent .ErrorFindingMatchingDisk
              (strL "unable to add disk-id " ++ deviceID ++
               strL " to local disk pool: " ++
               (strL "unable to find device with id " ++ deviceID)) deviceID ::
            (deviceIDPass fs deviceSet ids2).1,
          (deviceIDPass fs deviceSet ids1).2 ++
            (deviceIDPass fs deviceSet ids2).2)) ∧
    (∀ p, fs.evalSymlinks deviceID = .ok p →
       deviceIDPass fs deviceSet (ids1 ++ deviceID :: ids2) =
         ((deviceIDPass fs deviceSet ids1).1 ++ (deviceIDPass fs deviceSet ids2).1,
          (deviceIDPass fs deviceSet ids1).2 ++
            (if hasExactDisk deviceSet (filepathBase p) = true
             then [(⟨p, deviceID, []⟩ : DiskLocation)] else []) ++
            (deviceIDPass fs deviceSet ids2).2)) := by
  constructor
  · intro em hev
    rw [deviceIDPass_append]
    have hstep : deviceIDPass fs deviceSet (deviceID :: ids2) =
        (newEvent .ErrorFindingMatchingDisk
            (strL "unable to add disk-id " ++ deviceID ++
             strL " to local disk pool: " ++
             (strL "unable to find device with id " ++ deviceID)) deviceID ::
          (deviceIDPass fs deviceSet ids2).1,
         (deviceIDPass fs deviceSet ids2).2) := by
      simp only [deviceIDPass, findDeviceByID, hev]
    rw [hstep]
  · intro p hev
    rw [deviceIDPass_append]
    have hstep : deviceIDPass fs deviceSet (deviceID :: ids2) =
        ((deviceIDPass fs deviceSet ids2).1,
         (if hasExactDisk deviceSet (filepathBase p) = true
          then [(⟨p, deviceID, []⟩ : DiskLocation)] else []) ++
          (deviceIDPass fs deviceSet ids2).2) := by
      simp only [deviceIDPass, findDeviceByID, hev]
      by_cases hg : hasExactDisk deviceSet (filepathBase p) = true
      · simp [hg]
      · simp [hg]
    rw [hstep]
    simp

/-- Witness for C6: one broken identifier yields exactly one error event
naming it and no assignment. -/
theorem claim_C6_witness :
    deviceIDPass fsW6 ∅ ([] ++ strL "/dev/disk/by-id/ata-X" :: []) =
      ([newEvent .ErrorFindingMatchingDisk
          (strL "unable to add disk-id " ++ strL "/dev/disk/by-id/ata-X" ++
           strL " to local disk pool: " ++
           (strL "unable to find device with id " ++ strL "/dev/disk/by-id/ata-X"))
          (strL "/dev/disk/by-id/ata-X")], []) :=
  (claim_C6 fsW6 ∅ [] [] (strL "/dev/disk/by-id/ata-X")).1
    (strL "lstat") rfl


/-! ## Claim C4 -/

theorem deviceNamePass_inv (fs : FS) (deviceSet : Finset Str)
    (allDiskIds : List Str) (names : List Str) (hn : ∀ n ∈ names, n ≠ []) :
    ∀ loc ∈ deviceNamePass fs deviceSet allDiskIds names,
      loc.diskNamePath ≠ [] ∧ loc.directoryPath = [] := by
  induction names with
  | nil => simp [deviceNamePass]
  | cons n names ih =>
      intro loc hloc
      simp only [deviceNamePass] at hloc
      by_cases hg : hasExactDisk deviceSet (filepathBase n) = true
      · rw [if_pos hg] at hloc
        rcases hfs : findStableDeviceID fs (filepathBase n) allDiskIds with _ | mid <;>
          rw [hfs] at hloc <;>
          rcases List.mem_cons.mp hloc with h | h
        · subst h
          exact ⟨hn n (by simp), rfl⟩
        · exact ih (fun x hx => hn x (by simp [hx])) loc h
        · subst h
          exact ⟨hn n (by simp), rfl⟩
        · exact ih (fun x hx => hn x (by simp [hx])) loc h
      · rw [if_neg hg] at hloc
        exact ih (fun x hx => hn x (by simp [hx])) loc hloc

theorem deviceIDPass_inv (fs : FS) (deviceSet : Finset Str) (ids : List Str)
    (hev : ∀ q r, fs.evalSymlinks q = .ok r → r ≠ []) :
    ∀ loc ∈ (deviceIDPass fs deviceSet ids).2,
      loc.diskNamePath ≠ [] ∧ loc.directoryPath = [] := by
  induction ids with
  | nil => simp [deviceIDPass]
  | cons i ids ih =>
      intro loc hloc
      simp only [deviceIDPass] at hloc
      rcases hfd : findDeviceByID fs i with e | ⟨mid, mname⟩
      · rw [hfd] at hloc
        exact ih loc hloc
      · rw [hfd] at hloc
        have hmname : mname ≠ [] := by
          unfold findDeviceByID at hfd
          rcases hev2 : fs.evalSymlinks i with em | r
          · rw [hev2] at hfd
            simp at hfd
          · rw [hev2] at hfd
            simp only [Except.ok.injEq, Prod.mk.injEq] at hfd
            rw [← hfd.2]
            exact hev i r hev2
        dsimp only at hloc
        by_cases hg : hasExactDisk deviceSet (filepathBase mname) = true
        · rw [if_pos hg] at hloc
          rcases List.mem_cons.mp hloc with h | h
          · subst h
            exact ⟨hmname, rfl⟩
          · exact ih loc h
        · rw [if_neg hg] at hloc
          exact ih loc hloc

theorem rootfsDir_ne_nil : rootfsDir ≠ [] := by decide

theorem directoryPass_inv (ds : List Str) :
    ∀ st : FSState, ∀ loc ∈ (directoryPass st ds).2.2,
      loc.diskNamePath = [] ∧ loc.directoryPath ≠ [] := by
  induction ds with
  | nil => simp [directoryPass]
  | cons d ds ih =>
      intro st loc hloc
      simp only [directoryPass] at hloc
      by_cases hex : fileExists st (pathJoin rootfsDir d) = true
      · rw [if_pos hex] at hloc
        rcases hd : st.fs.isDir (pathJoin rootfsDir d) with em | b
        · rw [hd] at hloc
          exact ih st loc hloc
        · rcases b with _ | _
          · rw [hd] at hloc
            exact ih st loc hloc
          · rw [hd] at hloc
            rcases List.mem_cons.mp hloc with h | h
            · subst h
              exact ⟨rfl, pathJoin_ne_nil d rootfsDir_ne_nil⟩
            · exact ih st loc h
      · rw [if_neg hex] at hloc
        rcases hmk : mkdirAll st (pathJoin rootfsDir d) with ⟨st1, err⟩
        rcases err with _ | msg
        · rw [hmk] at hloc
          rcases List.mem_cons.mp hloc with h | h
          · subst h
            exact ⟨rfl, pathJoin_ne_nil d rootfsDir_ne_nil⟩
          · exact ih st1 loc h
        · rw [hmk] at hloc
          exact ih st1 loc hloc

theorem directoryPass_fs (ds : List Str) :
    ∀ st : FSState, (directoryPass st ds).1.fs = st.fs := by
  induction ds with
  | nil => intro st; rfl
  | cons d ds ih =>
      intro st
      simp only [directoryPass]
      by_cases hex : fileExists st (pathJoin rootfsDir d) = true
      · rw [if_pos hex]
        rcases hd : st.fs.isDir (pathJoin rootfsDir d) with em | b
        · exact ih st
        · rcases b with _ | _
          · exact ih st
          · exact ih st
      · rw [if_neg hex]
        rcases hmk : mkdirAll st (pathJoin rootfsDir d) with ⟨st1, err⟩
        have hfs1 : st1.fs = st.fs := by
          have := mkdirAll_fs st (pathJoin rootfsDir d)
          rw [hmk] at this
          exact this
        rcases err with _ | msg
        · rw [← hfs1]
          exact ih st1
        · rw [← hfs1]
          exact ih st1

theorem updateMap_forall {P : DiskLocation → Prop} (m : List (Str × List DiskLocation))
    (sc : Str) (loc : DiskLocation)
    (hm : ∀ entry ∈ m, ∀ l ∈ entry.2, P l) (hl : P loc) :
    ∀ entry ∈ updateMap m sc loc, ∀ l ∈ entry.2, P l := by
  induction m with
  | nil =>
      intro entry hentry l hlmem
      simp only [updateMap, List.mem_singleton] at hentry
      subst hentry
      simp only [List.mem_singleton] at hlmem
      subst hlmem
      exact hl
  | cons kv m ih =>
      intro entry hentry l hlmem
      rcases kv with ⟨k, v⟩
      simp only [updateMap] at hentry
      by_cases hk : k = sc
      · rw [if_pos hk] at hentry
        rcases List.mem_cons.mp hentry with h | h
        · subst h
          simp only [List.mem_append, List.mem_singleton] at hlmem
          rcases hlmem with h1 | h1
          · exact hm (k, v) (by simp) l h1
          · subst h1
            exact hl
        · exact hm entry (List.mem_cons_of_mem _ h) l hlmem
      · rw [if_neg hk] at hentry
        rcases List.mem_cons.mp hentry with h | h
        · subst h
          exact hm (k, v) (by simp) l hlmem
        · exact ih (fun a ha => hm a (List.mem_cons_of_mem _ ha)) entry h l hlmem

theorem foldl_updateMap_forall {P : DiskLocation → Prop} (locs : List DiskLocation) :
    ∀ (m : List (Str × List DiskLocation)) (sc : Str),
      (∀ entry ∈ m, ∀ l ∈ entry.2, P l) → (∀ l ∈ locs, P l) →
      ∀ entry ∈ locs.foldl (fun acc loc => updateMap acc sc loc) m,
        ∀ l ∈ entry.2, P l := by
  induction locs with
  | nil => intro m sc hm _; exact hm
  | cons loc locs ih =>
      intro m sc hm hlocs
      rw [List.foldl_cons]
      exact ih _ sc (updateMap_forall m sc loc hm (hlocs loc (by simp)))
        (fun l hl => hlocs l (by simp [hl]))

theorem findMatchingGo_inv (deviceSet : Finset Str) (allDiskIds : List Str)
    (cfg : List (Str × StorageClassDisks)) :
    ∀ (st : FSState) (m : List (Str × List DiskLocation)),
      (∀ sc e, (sc, e) ∈ cfg → ∀ n ∈ e.deviceNames, n ≠ []) →
      (∀ q r, st.fs.evalSymlinks q = .ok r → r ≠ []) →
      (∀ entry ∈ m, ∀ l ∈ entry.2, LocInvariant l) →
      ∀ entry ∈ (findMatchingGo deviceSet allDiskIds st m cfg).2.1,
        ∀ l ∈ entry.2, LocInvariant l := by
  induction cfg with
  | nil => intro st m _ _ hm; exact hm
  | cons kv cfg ih =>
      intro st m hnames hev hm
      rcases kv with ⟨sc, e⟩
      simp only [findMatchingGo]
      have hadds : ∀ l ∈ (classAdditions st deviceSet allDiskIds e).2.2,
          LocInvariant l := by
        intro l hl
        unfold classAdditions at hl
        simp only [List.mem_append] at hl
        rcases hl with (h | h) | h
        · exact Or.inl (deviceNamePass_inv st.fs deviceSet allDiskIds
            e.deviceNames (hnames sc e (by simp)) l h)
        · exact Or.inl (deviceIDPass_inv st.fs deviceSet e.deviceIDs hev l h)
        · exact Or.inr (directoryPass_inv e.directoryPaths st l h)
      have hfs' : (classAdditions st deviceSet allDiskIds e).1.fs = st.fs := by
        unfold classAdditions
        exact directoryPass_fs e.directoryPaths st
      exact ih _ _ (fun sc' e' h => hnames sc' e' (List.mem_cons_of_mem _ h))
        (fun q r hq => hev q r (by rw [← hfs']; exact hq))
        (foldl_updateMap_forall _ _ sc hm hadds)

/-- C4: every assignment the matcher produces, from a configuration whose
configured device names are non-empty and on a filesystem whose symbolic-link
resolutions yield non-empty paths, has exactly one of its device path and
directory path non-empty. -/
theorem claim_C4 (st : FSState) (cfg : List (Str × StorageClassDisks))
    (deviceSet : Finset Str) (allDiskIds : List Str)
    (hnames : ∀ sc e, (sc, e) ∈ cfg → ∀ n ∈ e.deviceNames, n ≠ [])
    (hev : ∀ q r, st.fs.evalSymlinks q = .ok r → r ≠ []) :
    ∀ entry ∈ (findMatchingDisks st cfg deviceSet allDiskIds).map,
      ∀ loc ∈ entry.2,
        (loc.diskNamePath ≠ [] ∧ loc.directoryPath = []) ∨
        (loc.diskNamePath = [] ∧ loc.directoryPath ≠ []) := by
  intro entry hentry loc hloc
  exact findMatchingGo_inv deviceSet allDiskIds cfg st [] hnames hev
    (by simp) entry hentry loc hloc

/-- Witness for C4 at a concrete one-class configuration producing both a
device assignment and a directory assignment. -/
theorem claim_C4_witness :
    ((⟨strL "/dev/sda", [], []⟩ : DiskLocation).diskNamePath ≠ [] ∧
     (⟨strL "/dev/sda", [], []⟩ : DiskLocation).directoryPath = []) ∨
    ((⟨strL "/dev/sda", [], []⟩ : DiskLocation).diskNamePath = [] ∧
     (⟨strL "/dev/sda", [], []⟩ : DiskLocation).directoryPath ≠ []) :=
  claim_C4 ⟨fsW4, [], []⟩
    [(strL "ssd", ⟨[strL "/dev/sda"], [], [strL "shared1"]⟩)]
    (insert (strL "sda") ∅) []
    (by
      intro sc e h n hn
      have he : e = ⟨[strL "/dev/sda"], [], [strL "shared1"]⟩ := by
        simp only [List.mem_singleton, Prod.mk.injEq] at h
        exact h.2
      subst he
      simp only [List.mem_singleton] at hn
      subst hn
      decide)
    (by intro q r h; simp [fsW4] at h)
    (strL "ssd", [⟨strL "/dev/sda", [], []⟩, ⟨[], [], strL "/rootfs/shared1"⟩])
    (by decide)
    ⟨strL "/dev/sda", [], []⟩
    (by decide)


/-! ## Claim C3 -/

theorem countDev_append (a b : List DiskLocation) (s : Str) :
    countDev (a ++ b) s = countDev a s + countDev b s :=
  List.countP_append _ a b

theorem lookupSC_updateMap_self (m : List (Str × List DiskLocation))
    (sc : Str) (loc : DiskLocation) :
    lookupSC (updateMap m sc loc) sc = lookupSC m sc ++ [loc] := by
  induction m with
  | nil => simp [updateMap, lookupSC]
  | cons kv m ih =>
      rcases kv with ⟨k, v⟩
      by_cases hk : k = sc
      · simp [updateMap, lookupSC, hk]
      · simp [updateMap, lookupSC, hk, ih]

theorem lookupSC_updateMap_ne (m : List (Str × List DiskLocation))
    (sc sc' : Str) (loc : DiskLocation) (h : sc' ≠ sc) :
    lookupSC (updateMap m sc loc) sc' = lookupSC m sc' := by
  have hne : ¬(sc = sc') := fun he => h he.symm
  induction m with
  | nil => simp [updateMap, lookupSC, hne]
  | cons kv m ih =>
      rcases kv with ⟨k, v⟩
      by_cases hk : k = sc
      · subst hk
        simp [updateMap, lookupSC, hne]
      · simp [updateMap, lookupSC, hk, ih]

theorem lookupSC_foldl_updateMap (locs : List DiskLocation) :
    ∀ (m : List (Str × List DiskLocation)) (sc sc' : Str),
      lookupSC (locs.foldl (fun acc l => updateMap acc sc l) m) sc' =
        if sc' = sc then lookupSC m sc ++ locs else lookupSC m sc' := by
  induction locs with
  | nil =>
      intro m sc sc'
      by_cases h : sc' = sc
      · subst h; simp
      · simp [h]
  | cons loc locs ih =>
      intro m sc sc'
      rw [List.foldl_cons, ih]
      by_cases h : sc' = sc
      · subst h
        rw [if_pos rfl, if_pos rfl, lookupSC_updateMap_self]
        simp
      · rw [if_neg h, if_neg h, lookupSC_updateMap_ne m sc sc' loc h]

theorem countDev_directoryPass (ds : List Str) :
    ∀ (st : FSState) (b : Str), countDev (directoryPass st ds).2.2 b = 0 := by
  intro st b
  rw [countDev, List.countP_eq_zero]
  intro loc hloc
  have := (directoryPass_inv ds st loc hloc).2
  simp [this]

theorem classAdditions_countDev (st : FSState) (deviceSet : Finset Str)
    (allDiskIds : List Str) (e : StorageClassDisks) (b : Str) :
    countDev (classAdditions st deviceSet allDiskIds e).2.2 b =
      countDev (deviceNamePass st.fs deviceSet allDiskIds e.deviceNames) b +
      countDev (deviceIDPass st.fs deviceSet e.deviceIDs).2 b := by
  unfold classAdditions
  dsimp only
  rw [countDev_append, countDev_append, countDev_directoryPass]
  omega

theorem findMatchingGo_count_mono (deviceSet : Finset Str) (allDiskIds : List Str)
    (cfg : List (Str × StorageClassDisks)) :
    ∀ (st : FSState) (m : List (Str × List DiskLocation)) (sc : Str) (b : Str),
      countDev (lookupSC m sc) b ≤
        countDev (lookupSC (findMatchingGo deviceSet allDiskIds st m cfg).2.1 sc) b := by
  induction cfg with
  | nil => intro st m sc b; exact le_refl _
  | cons kv cfg ih =>
      intro st m sc b
      rcases kv with ⟨k, e⟩
      simp only [findMatchingGo]
      refine le_trans ?_ (ih _ _ sc b)
      rw [lookupSC_foldl_updateMap]
      by_cases h : sc = k
      · subst h
        rw [if_pos rfl, countDev_append]
        exact Nat.le_add_right _ _
      · rw [if_neg h]

theorem findMatchingGo_count_lower (deviceSet : Finset Str) (allDiskIds : List Str)
    (cfg : List (Str × StorageClassDisks)) :
    ∀ (st : FSState) (m : List (Str × List DiskLocation)) (sc : Str)
      (e : StorageClassDisks) (b : Str), (sc, e) ∈ cfg →
      countDev (deviceNamePass st.fs deviceSet allDiskIds e.deviceNames) b +
        countDev (deviceIDPass st.fs deviceSet e.deviceIDs).2 b ≤
      countDev (lookupSC (findMatchingGo deviceSet allDiskIds st m cfg).2.1 sc) b := by
  induction cfg with
  | nil => intro st m sc e b h; simp at h
  | cons kv cfg ih =>
      intro st m sc e b hmem
      rcases kv with ⟨k, e'⟩
      rcases List.mem_cons.mp hmem with h | h
      · injection h with h1 h2
        subst h1
        subst h2
        simp only [findMatchingGo]
        refine le_trans ?_ (findMatchingGo_count_mono deviceSet allDiskIds cfg _ _ sc b)
        rw [lookupSC_foldl_updateMap, if_pos rfl, countDev_append,
          classAdditions_countDev]
        exact Nat.le_add_left _ _
      · simp only [findMatchingGo]
        have hfs : (classAdditions st deviceSet allDiskIds e').1.fs = st.fs := by
          unfold classAdditions
          exact directoryPass_fs e'.directoryPaths st
        have := ih (classAdditions st deviceSet allDiskIds e').1
          ((classAdditions st deviceSet allDiskIds e').2.2.foldl
            (fun acc loc => updateMap acc k loc) m) sc e b h
        rw [hfs] at this
        exact this

theorem countDev_deviceNamePass_pos (fs : FS) (deviceSet : Finset Str)
    (allDiskIds : List Str) (names : List Str) (n : Str)
    (hn : n ∈ names) (hg : hasExactDisk deviceSet (filepathBase n) = true) :
    1 ≤ countDev (deviceNamePass fs deviceSet allDiskIds names) (filepathBase n) := by
  induction names with
  | nil => simp at hn
  | cons x names ih =>
      simp only [deviceNamePass]
      rcases List.mem_cons.mp hn with h | h
      · subst h
        rw [if_pos hg]
        rcases findStableDeviceID fs (filepathBase n) allDiskIds with _ | mid <;>
          · rw [countDev, List.countP_cons]
            simp
      · by_cases hgx : hasExactDisk deviceSet (filepathBase x) = true
        · rw [if_pos hgx]
          rcases findStableDeviceID fs (filepathBase x) allDiskIds with _ | mid <;>
            · rw [countDev, List.countP_cons]
              exact le_trans (ih h) (Nat.le_add_right _ _)
        · rw [if_neg hgx]
          exact ih h

theorem countDev_deviceIDPass_pos (fs : FS) (deviceSet : Finset Str)
    (ids : List Str) (i p : Str) (hi : i ∈ ids)
    (hev : fs.evalSymlinks i = .ok p)
    (hg : hasExactDisk deviceSet (filepathBase p) = true) :
    1 ≤ countDev (deviceIDPass fs deviceSet ids).2 (filepathBase p) := by
  induction ids with
  | nil => simp at hi
  | cons x ids ih =>
      simp only [deviceIDPass]
      rcases List.mem_cons.mp hi with h | h
      · subst h
        have hfd : findDeviceByID fs i = .ok (i, p) := by
          unfold findDeviceByID
          rw [hev]
        rw [hfd]
        dsimp only
        rw [if_pos hg]
        rw [countDev, List.countP_cons]
        simp
      · rcases hfd : findDeviceByID fs x with e | ⟨mid, mname⟩
        · dsimp only
          exact ih h
        · dsimp only
          by_cases hgx : hasExactDisk deviceSet (filepathBase mname) = true
          · rw [if_pos hgx, countDev, List.countP_cons]
            exact le_trans (ih h) (Nat.le_add_right _ _)
          · rw [if_neg hgx]
            exact ih h

/-- C3: a device qualifying under both the device-name selector (its base
name in the unmounted set) and the device-ID selector (an identifier that
reverse-resolves to it) of the same storage class receives two separate
assignments in that class's list — the passes do not deduplicate. -/
theorem claim_C3 (st : FSState) (cfg : List (Str × StorageClassDisks))
    (deviceSet : Finset Str) (allDiskIds : List Str) (sc : Str)
    (e : StorageClassDisks) (n i p : Str)
    (hsc : (sc, e) ∈ cfg) (hn : n ∈ e.deviceNames) (hi : i ∈ e.deviceIDs)
    (hev : st.fs.evalSymlinks i = .ok p)
    (hb : filepathBase p = filepathBase n)
    (hset : hasExactDisk deviceSet (filepathBase n) = true) :
    2 ≤ countDev
      (lookupSC (findMatchingDisks st cfg deviceSet allDiskIds).map sc)
      (filepathBase n) := by
  have h1 := countDev_deviceNamePass_pos st.fs deviceSet allDiskIds
    e.deviceNames n hn hset
  have h2 := countDev_deviceIDPass_pos st.fs deviceSet e.deviceIDs i p hi hev
    (by rw [hb]; exact hset)
  rw [hb] at h2
  have hlow := findMatchingGo_count_lower deviceSet allDiskIds cfg st [] sc e
    (filepathBase n) hsc
  have : 2 ≤ countDev (deviceNamePass st.fs deviceSet allDiskIds e.deviceNames)
      (filepathBase n) +
      countDev (deviceIDPass st.fs deviceSet e.deviceIDs).2 (filepathBase n) :=
    Nat.add_le_add h1 h2
  exact le_trans this hlow

/-- Witness for C3: one class selecting `/dev/sda` by name and by an
identifier resolving to it yields two assignments for `sda`. -/
theorem claim_C3_witness :
    2 ≤ countDev
      (lookupSC (findMatchingDisks ⟨fsW3, [], []⟩
        [(strL "ssd",
          ⟨[strL "/dev/sda"], [strL "/dev/disk/by-id/ata-1"], []⟩)]
        (insert (strL "sda") ∅) [strL "/dev/disk/by-id/ata-1"]).map
        (strL "ssd"))
      (filepathBase (strL "/dev/sda")) :=
  claim_C3 ⟨fsW3, [], []⟩
    [(strL "ssd", ⟨[strL "/dev/sda"], [strL "/dev/disk/by-id/ata-1"], []⟩)]
    (insert (strL "sda") ∅) [strL "/dev/disk/by-id/ata-1"]
    (strL "ssd") ⟨[strL "/dev/sda"], [strL "/dev/disk/by-id/ata-1"], []⟩
    (strL "/dev/sda") (strL "/dev/disk/by-id/ata-1") (strL "/dev/sda")
    (by decide) (by decide) (by decide) rfl rfl (by decide)


/-! ## Claims C5 and C9: the event trace -/

theorem preAggOK_ne_agg {e : DiskEvent} (h : preAggOK e) : e ≠ aggEvent := by
  intro he
  subst he
  rcases h.2 with h2 | h2 | h2 <;> exact absurd h2 (by decide)

theorem preAggOK_not_erorfi {e : DiskEvent} (h : preAggOK e) :
    e.message.take 7 ≠ strL "eror fi" := by
  rcases h.2 with h2 | h2 | h2 <;>
    · rw [msgTag] at h2
      rw [h2]
      decide

theorem preAggOK_reason {e : DiskEvent} (h : preAggOK e) :
    e.reason ≠ .ErrorReadingBlockList := by
  rcases h.1 with h1 | h1 | h1 <;> simp [h1]

theorem deviceIDPass_events_ok (fs : FS) (deviceSet : Finset Str)
    (ids : List Str) : ∀ e ∈ (deviceIDPass fs deviceSet ids).1, preAggOK e := by
  induction ids with
  | nil => simp [deviceIDPass]
  | cons i ids ih =>
      intro ev hev
      simp only [deviceIDPass] at hev
      rcases hfd : findDeviceByID fs i with em | ⟨mid, mname⟩
      · rw [hfd] at hev
        dsimp only at hev
        rcases List.mem_cons.mp hev with h | h
        · subst h
          refine ⟨Or.inl rfl, Or.inl ?_⟩
          simp only [msgTag, newEvent, List.append_assoc]
          rw [List.take_append_of_le_length (by decide)]
          decide
        · exact ih ev h
      · rw [hfd] at hev
        dsimp only at hev
        by_cases hg : hasExactDisk deviceSet (filepathBase mname) = true
        · rw [if_pos hg] at hev
          exact ih ev hev
        · rw [if_neg hg] at hev
          exact ih ev hev

theorem directoryPass_events_ok (ds : List Str) :
    ∀ st : FSState, ∀ e ∈ (directoryPass st ds).2.1, preAggOK e := by
  induction ds with
  | nil => simp [directoryPass]
  | cons d ds ih =>
      intro st ev hev
      simp only [directoryPass] at hev
      by_cases hex : fileExists st (pathJoin rootfsDir d) = true
      · rw [if_pos hex] at hev
        rcases hd : st.fs.isDir (pathJoin rootfsDir d) with em | b
        · rw [hd] at hev
          dsimp only at hev
          rcases List.mem_cons.mp hev with h | h
          · subst h
            refine ⟨Or.inr (Or.inl rfl), Or.inr (Or.inl ?_)⟩
            simp only [msgTag, newEvent, List.append_assoc]
            rw [List.take_append_of_le_length (by decide)]
            decide
          · exact ih st ev h
        · rcases b with _ | _
          · rw [hd] at hev
            exact ih st ev hev
          · rw [hd] at hev
            dsimp only at hev
            exact ih st ev hev
      · rw [if_neg hex] at hev
        rcases hmk : mkdirAll st (pathJoin rootfsDir d) with ⟨st1, err⟩
        rcases err with _ | msg
        · rw [hmk] at hev
          dsimp only at hev
          exact ih st1 ev hev
        · rw [hmk] at hev
          dsimp only at hev
          rcases List.mem_cons.mp hev with h | h
          · subst h
            refine ⟨Or.inr (Or.inl rfl), Or.inr (Or.inl ?_)⟩
            simp only [msgTag, newEvent, List.append_assoc]
            rw [List.take_append_of_le_length (by decide)]
            decide
          · exact ih st1 ev h

theorem findMatchingGo_events_ok (deviceSet : Finset Str) (allDiskIds : List Str)
    (cfg : List (Str × StorageClassDisks)) :
    ∀ (st : FSState) (m : List (Str × List DiskLocation)),
      ∀ e ∈ (findMatchingGo deviceSet allDiskIds st m cfg).2.2, preAggOK e := by
  induction cfg with
  | nil => intro st m; simp [findMatchingGo]
  | cons kv cfg ih =>
      intro st m ev hev
      rcases kv with ⟨sc, e⟩
      simp only [findMatchingGo] at hev
      rw [List.mem_append] at hev
      rcases hev with h | h
      · unfold classAdditions at h
        dsimp only at h
        rw [List.mem_append] at h
        rcases h with h | h
        · exact deviceIDPass_events_ok st.fs deviceSet e.deviceIDs ev h
        · exact directoryPass_events_ok e.directoryPaths st ev h
      · exact ih _ _ ev h

theorem processAssignment_events_ok (sl sc : Str) (st : FSState)
    (loc : DiskLocation) :
    ∀ e ∈ (processAssignment sl sc st loc).2, preAggOK e := by
  intro ev hev
  unfold processAssignment at hev
  dsimp only at hev
  split at hev
  · simp only [List.mem_singleton] at hev
    subst hev
    refine ⟨Or.inl rfl, Or.inr (Or.inl ?_)⟩
    simp only [msgTag, newEvent, List.append_assoc]
    rw [List.take_append_of_le_length (by decide)]
    decide
  · split at hev
    · simp at hev
    · split at hev
      · simp at hev
      · simp only [List.mem_append] at hev
        rcases hev with hev | hev
        · split at hev
          · simp only [List.mem_singleton] at hev
            subst hev
            refine ⟨Or.inl rfl, Or.inr (Or.inl ?_)⟩
            simp only [msgTag, newEvent, List.append_assoc]
            rw [List.take_append_of_le_length (by decide)]
            decide
          · simp at hev
        · simp only [List.mem_singleton] at hev
          subst hev
          refine ⟨Or.inr (Or.inr rfl), Or.inr (Or.inr ?_)⟩
          simp only [msgTag, newSuccessEvent, List.append_assoc]
          rw [List.take_append_of_le_length (by decide)]
          decide

theorem materializeClass_events_ok (sl sc : Str) :
    ∀ (st : FSState) (locs : List DiskLocation),
      ∀ e ∈ (materializeClass sl sc st locs).2, preAggOK e := by
  intro st locs
  induction locs generalizing st with
  | nil => simp [materializeClass]
  | cons loc locs ih =>
      intro ev hev
      simp only [materializeClass] at hev
      rw [List.mem_append] at hev
      rcases hev with h | h
      · exact processAssignment_events_ok sl sc st loc ev h
      · exact ih _ ev h

theorem materialize_events_ok (sl : Str) :
    ∀ (st : FSState) (m : List (Str × List DiskLocation)),
      ∀ e ∈ (materialize sl st m).2, preAggOK e := by
  intro st m
  induction m generalizing st with
  | nil => simp [materialize]
  | cons kv m ih =>
      intro ev hev
      rcases kv with ⟨sc, arr⟩
      simp only [materialize] at hev
      rw [List.mem_append] at hev
      rcases hev with h | h
      · exact materializeClass_events_ok sl sc st arr ev h
      · exact ih _ ev h


theorem symLinkDisks_ok_run (symlinkLocation : Str) (st : FSState)
    (cfg : List (Str × StorageClassDisks)) (content : Str)
    (allDiskIds : List Str) :
    symLinkDisks symlinkLocation st cfg (.ok content) (.ok allDiskIds) =
      (if (findMatchingDisks st cfg (findNewDisks content).1 allDiskIds).map = []
       then ((findMatchingDisks st cfg (findNewDisks content).1 allDiskIds).st,
             (findMatchingDisks st cfg (findNewDisks content).1 allDiskIds).events ++
               [aggEvent])
       else ((materialize symlinkLocation
                (findMatchingDisks st cfg (findNewDisks content).1 allDiskIds).st
                (findMatchingDisks st cfg (findNewDisks content).1 allDiskIds).map).1,
             (findMatchingDisks st cfg (findNewDisks content).1 allDiskIds).events ++
               (materialize symlinkLocation
                 (findMatchingDisks st cfg (findNewDisks content).1 allDiskIds).st
                 (findMatchingDisks st cfg (findNewDisks content).1 allDiskIds).map).2)) :=
  rfl

theorem findMatchingDisks_events_ok (st : FSState)
    (cfg : List (Str × StorageClassDisks)) (deviceSet : Finset Str)
    (allDiskIds : List Str) :
    ∀ e ∈ (findMatchingDisks st cfg deviceSet allDiskIds).events, preAggOK e :=
  fun e he => findMatchingGo_events_ok deviceSet allDiskIds cfg st [] e he

/-- C5: a cycle in which the matcher returns zero total assignments reports
exactly one aggregate error event (appearing nowhere else in the trace) and
the materializer runs not at all — the returned state is the matcher's state;
a cycle with at least one assignment never reports the aggregate event. -/
theorem claim_C5 (symlinkLocation : Str) (st : FSState)
    (cfg : List (Str × StorageClassDisks)) (content : Str)
    (allDiskIds : List Str) :
    ((findMatchingDisks st cfg (findNewDisks content).1 allDiskIds).map = [] →
       symLinkDisks symlinkLocation st cfg (.ok content) (.ok allDiskIds) =
         ((findMatchingDisks st cfg (findNewDisks content).1 allDiskIds).st,
          (findMatchingDisks st cfg (findNewDisks content).1 allDiskIds).events ++
            [aggEvent]) ∧
       ((findMatchingDisks st cfg (findNewDisks content).1 allDiskIds).events ++
          [aggEvent]).count aggEvent = 1) ∧
    ((findMatchingDisks st cfg (findNewDisks content).1 allDiskIds).map ≠ [] →
       ((symLinkDisks symlinkLocation st cfg (.ok content)
          (.ok allDiskIds)).2).count aggEvent = 0) := by
  have h0 : ((findMatchingDisks st cfg (findNewDisks content).1
      allDiskIds).events).count aggEvent = 0 :=
    List.count_eq_zero.mpr (fun hmem =>
      preAggOK_ne_agg
        (findMatchingDisks_events_ok st cfg (findNewDisks content).1 allDiskIds
          aggEvent hmem) rfl)
  constructor
  · intro hmap
    refine ⟨?_, ?_⟩
    · rw [symLinkDisks_ok_run, if_pos hmap]
    · rw [List.count_append, h0]
      simp
  · intro hmap
    rw [symLinkDisks_ok_run, if_neg hmap]
    dsimp only
    rw [List.count_append, h0]
    have h1 : ((materialize symlinkLocation
        (findMatchingDisks st cfg (findNewDisks content).1 allDiskIds).st
        (findMatchingDisks st cfg (findNewDisks content).1 allDiskIds).map).2).count
          aggEvent = 0 :=
      List.count_eq_zero.mpr (fun hmem =>
        preAggOK_ne_agg (materialize_events_ok symlinkLocation _ _ aggEvent hmem) rfl)
    rw [h1]

/-- Witness for C5: a cycle with an empty configuration yields the single
aggregate event and leaves the state to the matcher's. -/
theorem claim_C5_witness :
    symLinkDisks (strL "/mnt/local-storage") ⟨fsW10, [], []⟩ []
        (.ok (strL "")) (.ok []) =
      ((findMatchingDisks ⟨fsW10, [], []⟩ [] (findNewDisks (strL "")).1 []).st,
       (findMatchingDisks ⟨fsW10, [], []⟩ [] (findNewDisks (strL "")).1 []).events ++
         [aggEvent]) ∧
    ((findMatchingDisks ⟨fsW10, [], []⟩ [] (findNewDisks (strL "")).1 []).events ++
       [aggEvent]).count aggEvent = 1 :=
  (claim_C5 (strL "/mnt/local-storage") ⟨fsW10, [], []⟩ [] (strL "") []).1 rfl

/-- C9: the two abort branches of `symLinkDisks` guarding the error results
of `findNewDisks` and `findMatchingDisks` are dead: both functions always
return a `nil` error, and consequently (after a successful listing and glob)
no reported event carries the `ErrorReadingBlockList` reason or the
`"eror finding matching disks"` message — the cycle can only abort through
the zero-assignment check. -/
theorem claim_C9 (symlinkLocation content : Str) (st : FSState)
    (cfg : List (Str × StorageClassDisks)) (allDiskIds : List Str) :
    (findNewDisks content).2 = none ∧
    (findMatchingDisks st cfg (findNewDisks content).1 allDiskIds).err = none ∧
    ∀ e ∈ (symLinkDisks symlinkLocation st cfg (.ok content) (.ok allDiskIds)).2,
      e.reason ≠ .ErrorReadingBlockList ∧ e.message.take 7 ≠ strL "eror fi" := by
  refine ⟨rfl, rfl, ?_⟩
  intro e he
  rw [symLinkDisks_ok_run] at he
  by_cases hmap : (findMatchingDisks st cfg (findNewDisks content).1 allDiskIds).map = []
  · rw [if_pos hmap] at he
    dsimp only at he
    rw [List.mem_append] at he
    rcases he with h | h
    · have hok := findMatchingDisks_events_ok st cfg (findNewDisks content).1
        allDiskIds e h
      exact ⟨preAggOK_reason hok, preAggOK_not_erorfi hok⟩
    · simp only [List.mem_singleton] at h
      subst h
      exact ⟨by decide, by decide⟩
  · rw [if_neg hmap] at he
    dsimp only at he
    rw [List.mem_append] at he
    rcases he with h | h
    · have hok := findMatchingDisks_events_ok st cfg (findNewDisks content).1
        allDiskIds e h
      exact ⟨preAggOK_reason hok, preAggOK_not_erorfi hok⟩
    · have hok := materialize_events_ok symlinkLocation _ _ e h
      exact ⟨preAggOK_reason hok, preAggOK_not_erorfi hok⟩

/-- Witness for C9 at a concrete cycle whose trace holds the aggregate
event. -/
theorem claim_C9_witness :
    aggEvent.reason ≠ .ErrorReadingBlockList ∧
    aggEvent.message.take 7 ≠ strL "eror fi" :=
  (claim_C9 (strL "/mnt/local-storage") (strL "") ⟨fsW10, [], []⟩ [] []).2.2
    aggEvent (by decide)

end LSO
